import Mathlib

/-!
Verification of the core algorithms of the `scry` deck-building assistant
against their natural-language specification.

This file contains a shallow embedding, in Lean 4, of the two algorithmic
cores of the repository:

* the mana-base allocation algorithm (`src/calculator/simple.rs`,
  `src/calculator/cmc_weighted.rs`, `src/deck/types.rs`), and
* the curve analyzer and the rule-based synergy engine
  (`src/curve/analyzer.rs`, `src/synergy/{detector,themes,keywords,types}.rs`,
  `src/input/decklist.rs`, `src/api/types.rs`).

Modelling conventions, used consistently below:

* Rust `f64` values are modelled as `ℚ`.  All arithmetic actually performed on
  the reachable paths of the embedded code is exact (`+`, `-`, `*`, guarded
  `/`, `max`, `floor`, comparisons), so the rational model agrees with the
  real-number reading of the algorithms.  The one place where IEEE semantics
  matters — `0.0 / 0.0 = NaN` in `CmcWeightedCalculator::calculate` when the
  total weighted pip count is zero — is modelled explicitly with
  `Option ℚ` (`none` = NaN), propagated exactly as f64 propagates NaN, and the
  `partial_cmp(..).unwrap()` panic inside the fractional-part sort is modelled
  by the calculator returning `none`.
* Rust `HashMap<K, V>` values whose entries are only read back via
  `get(k).unwrap_or(default)` are modelled as total functions `K → V`
  (an absent key and a stored default are indistinguishable to the program).
  Maps whose iteration order is observable (card profiles, theme buckets,
  CMC buckets) are modelled as association lists in insertion order; every
  property proved about them is invariant under the iteration order.
* Rust machine integers (`u32`) are modelled as `ℕ`; the only subtraction the
  code performs is `saturating_sub`, which is `ℕ` subtraction.
* `Vec::sort_by` / `sort_by_key` (stable sorts) are modelled by
  `List.insertionSort`, which is also stable.
-/

set_option maxHeartbeats 1600000

-- Batteries marks the `ℚ` field operations `@[irreducible]`; the concrete
-- evaluations below need them to reduce.
attribute [local semireducible] Rat.add Rat.mul Rat.inv Rat.sub
  Rat.ofScientific

namespace Scry

/-! ## Colors, dual lands, decks (src/deck/types.rs) -/

/-- The closed color enum of `src/deck/types.rs`. -/
inductive Color
  | white
  | blue
  | black
  | red
  | green
  | colorless
deriving DecidableEq, Fintype, Repr

/-- `Color::symbol` of `src/deck/types.rs`. -/
def Color.symbol : Color → String
  | .white => ("W")
  | .blue => ("U")
  | .black => ("B")
  | .red => ("R")
  | .green => ("G")
  | .colorless => ("C")

/-- `Color::name` of `src/deck/types.rs`. -/
def Color.name : Color → String
  | .white => ("White")
  | .blue => ("Blue")
  | .black => ("Black")
  | .red => ("Red")
  | .green => ("Green")
  | .colorless => ("Colorless")

/-- `DualLand` of `src/deck/types.rs`: a named group of multicolor lands. -/
structure DualLand where
  name : String
  colors : List Color
  count : ℕ
deriving DecidableEq, Repr

/-- The deck format tag of `src/deck/types.rs` (only carried as data here;
the calculator never branches on it). -/
inductive Format
  | commander
  | standard
  | modern
  | limited
  | custom
deriving DecidableEq, Repr

/-- `Deck` of `src/deck/types.rs`.  The two `HashMap<Color, u32>` fields are
modelled as total functions `Color → ℕ` (the code reads them only via
`get(color).copied().unwrap_or(0)` and sums of all values). -/
structure Deck where
  format : Format
  total_cards : ℕ
  target_lands : ℕ
  colors : List Color
  mana_symbols : Color → ℕ
  dual_lands : List DualLand
  pip_intensity : Color → ℕ
deriving DecidableEq

/-- `Deck::total_mana_symbols`: the sum of all values of the `mana_symbols`
map.  The map keys range over the six-element `Color` type, so the value sum
is the sum of the content function over all colors. -/
def Deck.total_mana_symbols (d : Deck) : ℕ :=
  ∑ c : Color, d.mana_symbols c

/-- `Deck::dual_land_count`. -/
def Deck.dual_land_count (d : Deck) : ℕ :=
  (d.dual_lands.map (fun dl => dl.count)).sum

/-- `Deck::basic_land_slots` (`target_lands.saturating_sub(dual_land_count)`;
`ℕ` subtraction is saturating subtraction). -/
def Deck.basic_land_slots (d : Deck) : ℕ :=
  d.target_lands - d.dual_land_count

/-- `ManaBase` of `src/deck/types.rs`.  `basics` is a total function
`Color → ℕ` (an entry removed by the final `retain` of the calculators and a
stored 0 are indistinguishable: the map is only consumed pointwise).
`color_percentages` stores `Option ℚ` because `CmcWeightedCalculator` can
store IEEE NaN percentages (`none`) in degenerate cases. -/
structure ManaBase where
  basics : Color → ℕ
  duals : List DualLand
  recommendations : List String
  color_percentages : Color → Option ℚ
deriving DecidableEq

/-- `ManaBase::new`: the empty mana base. -/
def ManaBase.new : ManaBase where
  basics := fun _ => 0
  duals := []
  recommendations := []
  color_percentages := fun _ => some 0

/-! ## The shared allocation pipeline of both calculators

`SimpleCalculator::calculate` (src/calculator/simple.rs lines 25–103) and
`CmcWeightedCalculator::calculate` (src/calculator/cmc_weighted.rs lines
44–120) contain the same allocation code, duplicated verbatim in the two
files; it is embedded once here, parameterized by the percentage map the two
calculators compute differently.  `percF c = none` models an IEEE NaN
percentage. -/

/-- The `dual_sources` map: for each dual-land group, its count is added once
per occurrence of a color in its color list. -/
def dualSources (duals : List DualLand) (c : Color) : ℚ :=
  (duals.map (fun dl => (dl.colors.count c : ℚ) * (dl.count : ℚ))).sum

/-- One step of the largest-remainder distribution loop: walk the sorted
fractional-part list, adding one basic land to each listed color, until the
slot budget is exhausted.  (`basics.get_mut(&color)` in the source always
succeeds because every listed color was inserted in the flooring loop.) -/
def applyAdds : (Color → ℕ) → List (Color × Option ℚ) → ℕ → Color → ℕ
  | g, _, 0 => g
  | g, [], _ + 1 => g
  | g, p :: rest, k + 1 =>
      applyAdds (Function.update g p.1 (g p.1 + 1)) rest k

section Allocation

variable (colors : List Color) (percF : Color → Option ℚ)
  (duals : List DualLand) (targetLands : ℕ)

/-- The `basic_slots` budget: `target_lands.saturating_sub(total dual count)`. -/
def slotBudget : ℕ :=
  targetLands - (duals.map (fun dl => dl.count)).sum

/-- The `remaining` map: `max(percentage * target_lands - dual_sources, 0.0)`
for each deck color (reads of absent keys default to 0).  For a NaN
percentage (`none`), `NaN * target - ds` is NaN and Rust's
`f64::max(NaN, 0.0)` returns `0.0`. -/
def remainingFor (c : Color) : ℚ :=
  if c ∈ colors then
    match percF c with
    | none => 0
    | some p => max (p * (targetLands : ℚ) - dualSources duals c) 0
  else 0

/-- `total_remaining`: the sum of the values of the `remaining` map. -/
def totalRemaining : ℚ :=
  ∑ c : Color, remainingFor colors percF duals targetLands c

/-- The `basic_counts` map by the over/under-constrained branch of the
shared allocation code.  In the underconstrained branch,
`extras * NaN = NaN` (`none`). -/
def basicCountsF (c : Color) : Option ℚ :=
  let B : ℚ := (slotBudget duals targetLands : ℚ)
  let R : ℚ := totalRemaining colors percF duals targetLands
  if B ≤ R then
    some (remainingFor colors percF duals targetLands c *
      (if 0 < R then B / R else 0))
  else
    if c ∈ colors then
      match percF c with
      | none => none
      | some p =>
          some (remainingFor colors percF duals targetLands c + (B - R) * p)
    else some 0

/-- `count.floor() as u32` of a basic count: a `u32` cast saturates NaN and
negatives to 0. -/
def flooredOf (c : Color) : ℕ :=
  match basicCountsF colors percF duals targetLands c with
  | none => 0
  | some x => (⌊x⌋).toNat

/-- The `fractional_parts` vector, built by iterating `deck.colors` in list
order (duplicates included, as in the source). -/
def fracPartsOf : List (Color × Option ℚ) :=
  colors.map (fun c =>
    (c, (basicCountsF colors percF duals targetLands c).map
      (fun x => x - (⌊x⌋ : ℚ))))

/-- The allocation pipeline shared verbatim by both calculators:
dual-source accounting, remaining-need computation, over/under-constrained
fitting, largest-remainder rounding, and the distribution of leftover slots.
Returns `none` when the fractional-part sort panics: its comparator calls
`partial_cmp(..).unwrap()`, which panics on a NaN fractional part whenever
the list has at least two elements (so that a comparison is performed; on
the reachable NaN states every fractional part is NaN simultaneously).
The sort is `sort_by` on descending fractional part — a stable sort,
modelled by `List.insertionSort`, which is also stable. -/
def allocate : Option (Color → ℕ) :=
  let slots := slotBudget duals targetLands
  let flr := flooredOf colors percF duals targetLands
  let fracs := fracPartsOf colors percF duals targetLands
  let rounded : ℕ := (colors.map flr).sum
  if 2 ≤ fracs.length ∧ fracs.any (fun p => p.2.isNone) then
    none
  else
    let sorted := fracs.insertionSort
      (fun p q => (q.2.getD 0) ≤ (p.2.getD 0))
    let basics0 : Color → ℕ := fun c => if c ∈ colors then flr c else 0
    some (applyAdds basics0 sorted (slots - rounded))

end Allocation

/-- `SimpleCalculator::calculate` (src/calculator/simple.rs lines 8–104).
Returns `none` when the source would panic (provably never for this
calculator: its percentages are never NaN). -/
def SimpleCalculator.calculate (deck : Deck) : Option ManaBase :=
  if deck.total_mana_symbols = 0 ∨ deck.colors = [] then
    some ManaBase.new
  else
    let S : ℚ := (deck.total_mana_symbols : ℚ)
    let percF : Color → Option ℚ := fun c =>
      if c ∈ deck.colors then some ((deck.mana_symbols c : ℚ) / S) else some 0
    (allocate deck.colors percF deck.dual_lands deck.target_lands).map
      (fun basics =>
        { basics := basics
          duals := deck.dual_lands
          recommendations := []
          color_percentages := percF })

/-- Rust `str::to_lowercase`.  (All strings the program lowercases are ASCII,
on which Unicode lowercasing and per-`Char` ASCII lowercasing agree.) -/
def lowerStr (s : String) : String :=
  ⟨s.data.map Char.toLower⟩

/-- The recommendation string pushed by `CmcWeightedCalculator::calculate`
(src/calculator/cmc_weighted.rs lines 126–133) for a color with pip
intensity at least 3. -/
def recMessage (c : Color) (intensity : ℕ) : String :=
  c.name ++ (" has high pip density (") ++ (toString intensity) ++
    (" cards with \x7b") ++ c.symbol ++ ("\x7d\x7b") ++ c.symbol ++
    ("\x7d or more). Consider additional ") ++ (lowerStr c.name) ++
    (" sources or mana rocks.")

/-- `CmcWeightedCalculator::calculate` (src/calculator/cmc_weighted.rs lines
8–138).  The weighted percentage is `(count + intensity * 0.5) /
total_weighted`; when `total_weighted` is zero (only possible when no color
of `deck.colors` has any pips while the global pip total is nonzero) the Rust
code computes `0.0 / 0.0 = NaN`, modelled as `none`. -/
def CmcWeightedCalculator.calculate (deck : Deck) : Option ManaBase :=
  if deck.total_mana_symbols = 0 ∨ deck.colors = [] then
    some ManaBase.new
  else
    let w : Color → ℚ := fun c =>
      (deck.mana_symbols c : ℚ) + (deck.pip_intensity c : ℚ) * (1 / 2)
    let W : ℚ := ∑ c : Color, (if c ∈ deck.colors then w c else 0)
    let percF : Color → Option ℚ := fun c =>
      if c ∈ deck.colors then
        (if W = 0 then none else some (w c / W))
      else some 0
    (allocate deck.colors percF deck.dual_lands deck.target_lands).map
      (fun basics =>
        { basics := basics
          duals := deck.dual_lands
          recommendations :=
            (deck.colors.filter (fun c => 3 ≤ deck.pip_intensity c)).map
              (fun c => recMessage c (deck.pip_intensity c))
          color_percentages := percF })

/-- Sum of all basic-land counts of a mana base (`sum(basics.values())`:
zero entries are removed by the final `retain`, which does not change the
sum). -/
def ManaBase.basicsTotal (mb : ManaBase) : ℕ :=
  ∑ c : Color, mb.basics c

/-- Substring containment on character lists (Rust `str::contains` for
literal patterns). -/
def containsSub (pat : List Char) : List Char → Bool
  | [] => pat.isEmpty
  | c :: t => pat.isPrefixOf (c :: t) || containsSub pat t

/-! ## Concrete decks used to settle the calculator claims -/

/-- A deck whose pip map counts a color (`black`) that is not listed in
`colors`: the percentages then sum to 1/10, not 1, and the allocation
under-fills the basic-land budget. -/
def c1DeckA : Deck where
  format := .standard
  total_cards := 60
  target_lands := 20
  colors := [Color.blue]
  mana_symbols := fun c =>
    if c = Color.blue then 1 else if c = Color.black then 9 else 0
  dual_lands := []
  pip_intensity := fun _ => 0

/-- A deck whose `colors` list repeats a color: the flooring loop then
counts that color's floor twice in `rounded_total`, and the topping-up loop
hands out too few slots. -/
def c1DeckB : Deck where
  format := .standard
  total_cards := 60
  target_lands := 3
  colors := [Color.blue, Color.blue, Color.black]
  mana_symbols := fun c =>
    if c = Color.blue then 1 else if c = Color.black then 1 else 0
  dual_lands := []
  pip_intensity := fun _ => 0

/-- A well-formed two-color deck with four dual lands (the repository's own
`test_two_color_even_split_with_duals` input). -/
def c1DeckW : Deck where
  format := .standard
  total_cards := 60
  target_lands := 24
  colors := [Color.blue, Color.black]
  mana_symbols := fun c =>
    if c = Color.blue then 10 else if c = Color.black then 10 else 0
  dual_lands := [⟨("Dimir lands"), [Color.blue, Color.black], 4⟩]
  pip_intensity := fun _ => 0

/-- A mono-blue deck whose single color has pip intensity 5. -/
def c2Deck : Deck where
  format := .standard
  total_cards := 60
  target_lands := 24
  colors := [Color.blue]
  mana_symbols := fun c => if c = Color.blue then 1 else 0
  dual_lands := []
  pip_intensity := fun c => if c = Color.blue then 5 else 0

/-- A deck whose pips all sit on a color (`red`) outside `colors`: the
CMC-weighted total weight over `colors` is 0, so every percentage is
`0.0 / 0.0 = NaN`, every fractional part is NaN, and the fractional-part
sort's `partial_cmp(..).unwrap()` panics. -/
def c3Deck : Deck where
  format := .standard
  total_cards := 60
  target_lands := 24
  colors := [Color.blue, Color.black]
  mana_symbols := fun c => if c = Color.red then 4 else 0
  dual_lands := []
  pip_intensity := fun _ => 0

/-! ## Cards and decklists (src/api/types.rs, src/input/decklist.rs)

Only the `Card` fields the embedded core reads are carried (identity,
costs, type line, oracle text, faces); the API metadata fields (set, rarity,
prices, legalities, image URIs, ...) are never consulted by the curve or
synergy code and are omitted. -/

/-- `CardFace` of `src/api/types.rs`. -/
structure CardFace where
  name : String
  mana_cost : Option String
  type_line : Option String
  oracle_text : Option String
deriving DecidableEq, Repr

/-- `Card` of `src/api/types.rs` (core-relevant fields). -/
structure Card where
  id : String
  name : String
  mana_cost : Option String
  cmc : ℚ
  type_line : String
  oracle_text : Option String
  card_faces : Option (List CardFace)
deriving DecidableEq, Repr

/-- `Card::all_oracle_text`: the main oracle text (when present) followed by
each face's oracle text. -/
def Card.all_oracle_text (card : Card) : List String :=
  card.oracle_text.toList ++
    (card.card_faces.getD []).filterMap (fun face => face.oracle_text)

/-- `Card::all_type_lines`: the main type line (when nonempty) followed by
each face's type line. -/
def Card.all_type_lines (card : Card) : List String :=
  (if card.type_line = ("") then [] else [card.type_line]) ++
    (card.card_faces.getD []).filterMap (fun face => face.type_line)

/-- `DeckSection` of `src/input/decklist.rs`. -/
inductive DeckSection
  | commander
  | mainboard
  | sideboard
  | maybeboard
deriving DecidableEq, Repr

/-- `DeckSource` of `src/input/decklist.rs`. -/
inductive DeckSource
  | textFile (path : String)
  | moxfield (id : String)
  | manual
deriving DecidableEq, Repr

/-- `DeckEntry` of `src/input/decklist.rs` (the source field `section` is a
Lean keyword and is called `sect` here). -/
structure DeckEntry where
  quantity : ℕ
  card_name : String
  card : Option Card
  sect : DeckSection
deriving DecidableEq, Repr

/-- `DeckList` of `src/input/decklist.rs`. -/
structure DeckList where
  name : Option String
  format : Option String
  entries : List DeckEntry
  source : DeckSource
  excludes_lands : Bool
deriving DecidableEq, Repr

/-- `DeckList::mainboard`: mainboard entries, commander included. -/
def DeckList.mainboard (d : DeckList) : List DeckEntry :=
  d.entries.filter (fun e =>
    e.sect = DeckSection.mainboard ∨ e.sect = DeckSection.commander)

/-- `DeckList::total_cards`: the sum of all entry quantities. -/
def DeckList.total_cards (d : DeckList) : ℕ :=
  (d.entries.map (fun e => e.quantity)).sum

/-- `DeckList::unique_cards`: the number of entries. -/
def DeckList.unique_cards (d : DeckList) : ℕ :=
  d.entries.length

/-! ## Curve analyzer (src/curve/analyzer.rs, src/curve/types.rs) -/

/-- `ColorPipBreakdown` of `src/curve/types.rs`. -/
structure ColorPipBreakdown where
  white : ℚ
  blue : ℚ
  black : ℚ
  red : ℚ
  green : ℚ
  colorless : ℚ
deriving DecidableEq, Repr

/-- The all-zero breakdown (`Default` in the source). -/
def ColorPipBreakdown.zero : ColorPipBreakdown :=
  ⟨0, 0, 0, 0, 0, 0⟩

/-- `ColorPipBreakdown::add`. -/
def ColorPipBreakdown.addB (a b : ColorPipBreakdown) : ColorPipBreakdown :=
  ⟨a.white + b.white, a.blue + b.blue, a.black + b.black,
   a.red + b.red, a.green + b.green, a.colorless + b.colorless⟩

/-- `CmcBucket` of `src/curve/types.rs`. -/
structure CmcBucket where
  cmc : ℕ
  total_count : ℕ
  creature_count : ℕ
  non_creature_count : ℕ
  card_names : List String
  creature_names : List String
  non_creature_names : List String
deriving DecidableEq, Repr

/-- `CmcBucket::new`. -/
def CmcBucket.new (cmc : ℕ) : CmcBucket :=
  ⟨cmc, 0, 0, 0, [], [], []⟩

/-- `CurveStats` of `src/curve/types.rs`; the three distribution `HashMap`s
are modelled as association lists in bucket order. -/
structure CurveStats where
  average_cmc : ℚ
  median_cmc : ℚ
  mode_cmc : ℕ
  total_nonland_cards : ℕ
  total_creatures : ℕ
  total_non_creatures : ℕ
  cmc_distribution : List (ℕ × ℚ)
  creature_distribution : List (ℕ × ℚ)
  non_creature_distribution : List (ℕ × ℚ)
deriving DecidableEq, Repr

/-- The zero `CurveStats` (`Default` in the source). -/
def CurveStats.default : CurveStats :=
  ⟨0, 0, 0, 0, 0, 0, [], [], []⟩

/-- `LandCountSource` of `src/curve/types.rs`. -/
inductive LandCountSource
  | userProvided
  | detectedFromDeck (n : ℕ)
  | formatDefault (s : String)
deriving DecidableEq, Repr

/-- `CurveAnalysis` of `src/curve/types.rs`. -/
structure CurveAnalysis where
  deck_name : Option String
  deck_format : Option String
  total_cards : ℕ
  unique_cards : ℕ
  buckets : List CmcBucket
  stats : CurveStats
  max_cmc : ℕ
  max_count : ℕ
  pip_breakdown : ColorPipBreakdown
  mana_base : Option ManaBase
  target_lands : Option ℕ
  land_source : Option LandCountSource
deriving DecidableEq

/-- The lowercased character list of a string (Rust
`to_lowercase()`; all inputs are ASCII). -/
def lowerData (s : String) : List Char :=
  s.data.map Char.toLower

/-- `CurveAnalyzer::is_land`: the top-level type line contains `"land"`
case-insensitively. -/
def CurveAnalyzer.is_land (typeLine : String) : Bool :=
  containsSub ("land").data (lowerData typeLine)

/-- `CurveAnalyzer::is_creature`: the top-level type line contains
`"creature"` case-insensitively. -/
def CurveAnalyzer.is_creature (typeLine : String) : Bool :=
  containsSub ("creature").data (lowerData typeLine)

/-- The brace-token scanner of `CurveAnalyzer::count_color_pips`: outside
braces, skip until `'{'`; inside braces, accumulate characters until `'}'`
or the end of the string (an unterminated symbol is still processed). -/
def collectSymbols : List Char → Option (List Char) → List (List Char)
  | [], none => []
  | [], some acc => [acc.reverse]
  | c :: t, none =>
      if c = '{' then collectSymbols t (some []) else collectSymbols t none
  | c :: t, some acc =>
      if c = '}' then acc.reverse :: collectSymbols t none
      else collectSymbols t (some (c :: acc))

/-- Rust `str::split('/')` (keeps empty segments). -/
def splitSlash : List Char → List Char → List (List Char)
  | cur, [] => [cur.reverse]
  | cur, c :: t =>
      if c = '/' then cur.reverse :: splitSlash [] t
      else splitSlash (c :: cur) t

/-- `CurveAnalyzer::add_pip_for_symbol`: uppercase the symbol and bump the
matching color, ignoring anything that is not one of W/U/B/R/G/C. -/
def addPipForSymbol (bd : ColorPipBreakdown) (symbol : List Char)
    (amount : ℚ) : ColorPipBreakdown :=
  let u := symbol.map Char.toUpper
  if u = [('W' : Char)] then { bd with white := bd.white + amount }
  else if u = [('U' : Char)] then { bd with blue := bd.blue + amount }
  else if u = [('B' : Char)] then { bd with black := bd.black + amount }
  else if u = [('R' : Char)] then { bd with red := bd.red + amount }
  else if u = [('G' : Char)] then { bd with green := bd.green + amount }
  else if u = [('C' : Char)] then { bd with colorless := bd.colorless + amount }
  else bd

/-- One scanned `{...}` symbol's contribution: a symbol containing `'/'` is
hybrid and adds 0.5 per side; otherwise the symbol adds 1.0 if it is a
color letter. -/
def addSymbolPips (bd : ColorPipBreakdown) (symbol : List Char) :
    ColorPipBreakdown :=
  if symbol.contains '/' then
    (splitSlash [] symbol).foldl
      (fun bd part => addPipForSymbol bd part (1 / 2)) bd
  else
    addPipForSymbol bd symbol 1

/-- `CurveAnalyzer::count_color_pips` (src/curve/analyzer.rs lines 93–130):
scan the `{...}` tokens of the mana-cost string, accumulate per-symbol
contributions, and multiply every component by the entry quantity. -/
def count_color_pips (manaCost : String) (quantity : ℕ) : ColorPipBreakdown :=
  let bd := (collectSymbols manaCost.data none).foldl addSymbolPips
    ColorPipBreakdown.zero
  let qty : ℚ := (quantity : ℚ)
  ⟨bd.white * qty, bd.blue * qty, bd.black * qty,
   bd.red * qty, bd.green * qty, bd.colorless * qty⟩

/-- `cmc_map.entry(cmc).or_insert_with(|| CmcBucket::new(cmc))` followed by
the in-place bucket update, on the association-list model of the map. -/
def updateBucketMap (f : CmcBucket → CmcBucket) (cmc : ℕ) :
    List (ℕ × CmcBucket) → List (ℕ × CmcBucket)
  | [] => [(cmc, f (CmcBucket.new cmc))]
  | (k, b) :: rest =>
      if k = cmc then (k, f b) :: rest
      else (k, b) :: updateBucketMap f cmc rest

/-- The per-entry bucket update of `CurveAnalyzer::analyze`. -/
def bucketStep (card : Card) (quantity : ℕ) (b : CmcBucket) : CmcBucket :=
  let b := { b with
    total_count := b.total_count + quantity
    card_names := b.card_names ++ [card.name] }
  if CurveAnalyzer.is_creature card.type_line then
    { b with
      creature_count := b.creature_count + quantity
      creature_names := b.creature_names ++ [card.name] }
  else
    { b with
      non_creature_count := b.non_creature_count + quantity
      non_creature_names := b.non_creature_names ++ [card.name] }

/-- `card.cmc.round() as u32`: round half away from zero, saturating
negatives to 0 (for nonnegative values this is `⌊q + 1/2⌋`). -/
def cmcBucketIndex (q : ℚ) : ℕ :=
  (round q).toNat

/-- The accumulator state of the entry loop of `CurveAnalyzer::analyze`:
the CMC bucket map, the multiset of per-copy CMC values, and the pip
breakdown. -/
structure CurveAcc where
  cmcMap : List (ℕ × CmcBucket)
  allCmcs : List ℚ
  pips : ColorPipBreakdown
deriving DecidableEq

/-- One iteration of the entry loop of `CurveAnalyzer::analyze`: skip
unhydrated entries and lands, then accumulate statistics, pips, and the
bucket update. -/
def curveStep (acc : CurveAcc) (e : DeckEntry) : CurveAcc :=
  match e.card with
  | none => acc
  | some card =>
      if CurveAnalyzer.is_land card.type_line then acc
      else
        let cmc := cmcBucketIndex card.cmc
        let allCmcs := acc.allCmcs ++ List.replicate e.quantity card.cmc
        let pips := match card.mana_cost with
          | none => acc.pips
          | some mc => acc.pips.addB (count_color_pips mc e.quantity)
        let cmcMap := updateBucketMap (bucketStep card e.quantity) cmc
          acc.cmcMap
        ⟨cmcMap, allCmcs, pips⟩

/-- `CurveAnalyzer::calculate_stats` (src/curve/analyzer.rs lines 144–206). -/
def CurveAnalyzer.calculate_stats (buckets : List CmcBucket)
    (allCmcs : List ℚ) : CurveStats :=
  if allCmcs.length = 0 then CurveStats.default
  else
    let total_nonland := allCmcs.length
    let average_cmc := allCmcs.sum / (allCmcs.length : ℚ)
    let sorted := allCmcs.insertionSort (fun a b => a ≤ b)
    let median_cmc :=
      if sorted.length % 2 = 0 then
        ((sorted.getD (sorted.length / 2 - 1) 0)
          + (sorted.getD (sorted.length / 2) 0)) / 2
      else sorted.getD (sorted.length / 2) 0
    -- `max_by_key` returns the last of several equal maxima
    let mode_cmc := ((buckets.foldl (fun acc b =>
        match acc with
        | none => some b
        | some x => if x.total_count ≤ b.total_count then some b
          else some x) none).map (fun b => b.cmc)).getD 0
    let total_creatures := (buckets.map (fun b => b.creature_count)).sum
    let total_non_creatures :=
      (buckets.map (fun b => b.non_creature_count)).sum
    { average_cmc := average_cmc
      median_cmc := median_cmc
      mode_cmc := mode_cmc
      total_nonland_cards := total_nonland
      total_creatures := total_creatures
      total_non_creatures := total_non_creatures
      cmc_distribution := buckets.map (fun b =>
        (b.cmc, (b.total_count : ℚ) / (total_nonland : ℚ)))
      creature_distribution :=
        if 0 < total_creatures then
          buckets.map (fun b =>
            (b.cmc, (b.creature_count : ℚ) / (total_creatures : ℚ)))
        else []
      non_creature_distribution :=
        if 0 < total_non_creatures then
          buckets.map (fun b =>
            (b.cmc, (b.non_creature_count : ℚ) / (total_non_creatures : ℚ)))
        else [] }

/-- `CurveAnalyzer::analyze` (src/curve/analyzer.rs lines 14–80). -/
def CurveAnalyzer.analyze (deck_list : DeckList) : CurveAnalysis :=
  let acc := deck_list.mainboard.foldl curveStep ⟨[], [], .zero⟩
  let buckets := (acc.cmcMap.map (fun p => p.2)).insertionSort
    (fun a b => a.cmc ≤ b.cmc)
  let stats := CurveAnalyzer.calculate_stats buckets acc.allCmcs
  { deck_name := deck_list.name
    deck_format := deck_list.format
    total_cards := deck_list.total_cards
    unique_cards := deck_list.unique_cards
    buckets := buckets
    stats := stats
    max_cmc := ((buckets.map (fun b => b.cmc)).foldl max 0)
    max_count := ((buckets.map (fun b => b.total_count)).foldl max 0)
    pip_breakdown := acc.pips
    mana_base := none
    target_lands := none
    land_source := none }

/-! ## The regex patterns of the synergy engine

Every regex in `src/synergy/{keywords,themes}.rs` has one of two shapes:
`(?i)` followed by literal segments separated by `.*`, or `(?i)\bword\b`.
They are embedded as data (`Pat`) with a matcher implementing exactly those
two shapes: case-insensitivity is realized by lowercasing subject and
pattern; `.*` does not match a newline, so a segment pattern matches iff
some line of the subject contains the segments in order, disjointly; `\b`
is a word boundary (word characters: alphanumeric or `'_'`). -/

/-- A synergy-engine regex: either literal segments joined by `.*`, or a
`\b`-delimited word.  Literal segments are stored lowercase. -/
inductive Pat
  | lits (segments : List String)
  | word (w : String)
deriving DecidableEq, Repr

/-- Split on newline characters (`.*` in the source regexes cannot cross a
newline, and no literal segment contains one). -/
def splitOnNl : List Char → List Char → List (List Char)
  | cur, [] => [cur.reverse]
  | cur, c :: t =>
      if c = '\n' then cur.reverse :: splitOnNl [] t
      else splitOnNl (c :: cur) t

/-- Drop through the first occurrence of `pat`, returning the text after
it, or `none` when `pat` does not occur. -/
def dropAfterFirst (pat : List Char) : List Char → Option (List Char)
  | [] => if pat.isEmpty then some [] else none
  | c :: t =>
      if pat.isPrefixOf (c :: t) then some ((c :: t).drop pat.length)
      else dropAfterFirst pat t

/-- Match literal segments in order, each strictly after the previous one
(the `.*`-gap semantics of an unanchored regex search: a match exists iff
taking the earliest occurrence of each segment in turn succeeds). -/
def matchSegs : List String → List Char → Bool
  | [], _ => true
  | seg :: rest, text =>
      match dropAfterFirst seg.data text with
      | none => false
      | some t => matchSegs rest t

/-- A regex word character (`\w`): alphanumeric or underscore. -/
def isWordChar (c : Char) : Bool :=
  c.isAlphanum || c = '_'

/-- Scan for a `\bw\b` match: `w` occurs, the preceding character (when
any) is not a word character, and neither is the following one. -/
def wordScan (w : List Char) : Option Char → List Char → Bool
  | _, [] => false
  | prev, c :: t =>
      (w.isPrefixOf (c :: t) &&
        (match prev with
         | none => true
         | some p => !(isWordChar p)) &&
        (match (c :: t).drop w.length with
         | [] => true
         | r :: _ => !(isWordChar r))) || wordScan w (some c) t

/-- `Regex::is_match` for the two embedded pattern shapes, on a lowercased
subject. -/
def patMatch (p : Pat) (textLower : List Char) : Bool :=
  match p with
  | .lits segs => (splitOnNl [] textLower).any (fun line => matchSegs segs line)
  | .word w => wordScan w.data none textLower

/-! ## Synergy types (src/synergy/types.rs) -/

/-- `CounterType` of `src/synergy/types.rs`. -/
inductive CounterType
  | plusOne
  | minusOne
  | loyalty
  | generic (s : String)
deriving DecidableEq, Repr

/-- `Theme` of `src/synergy/types.rs`. -/
inductive Theme
  | tokens
  | counters (ct : CounterType)
  | graveyard
  | sacrifice
  | blink
  | ramp
  | draw
  | removal
  | lifegain
  | discard
  | mill
  | equipment
  | auras
  | artifacts
  | enchantments
  | lands
  | tribal (tribe : String)
  | aggro
  | control
  | combo
  | midrange
  | stax
  | voltron
  | spellslinger
  | aristocrats
  | reanimator
  | storm
  | custom (s : String)
deriving DecidableEq, Repr

/-- `Theme::display_name`. -/
def Theme.display_name : Theme → String
  | .tokens => ("Tokens")
  | .counters .plusOne => ("+1/+1 Counters")
  | .counters .minusOne => ("-1/-1 Counters")
  | .counters .loyalty => ("Loyalty Counters")
  | .counters (.generic s) => s ++ (" Counters")
  | .graveyard => ("Graveyard")
  | .sacrifice => ("Sacrifice")
  | .blink => ("Blink/Flicker")
  | .ramp => ("Ramp")
  | .draw => ("Card Draw")
  | .removal => ("Removal")
  | .lifegain => ("Lifegain")
  | .discard => ("Discard")
  | .mill => ("Mill")
  | .equipment => ("Equipment")
  | .auras => ("Auras")
  | .artifacts => ("Artifacts Matter")
  | .enchantments => ("Enchantments Matter")
  | .lands => ("Lands Matter")
  | .tribal tribe => tribe ++ (" Tribal")
  | .aggro => ("Aggro")
  | .control => ("Control")
  | .combo => ("Combo")
  | .midrange => ("Midrange")
  | .stax => ("Stax")
  | .voltron => ("Voltron")
  | .spellslinger => ("Spellslinger")
  | .aristocrats => ("Aristocrats")
  | .reanimator => ("Reanimator")
  | .storm => ("Storm")
  | .custom s => s

/-- `Keyword` of `src/synergy/types.rs`. -/
inductive Keyword
  | flying
  | trample
  | haste
  | vigilance
  | deathtouch
  | lifelink
  | firstStrike
  | doubleStrike
  | menace
  | reach
  | flash
  | hexproof
  | indestructible
  | defender
  | ward
  | flashback
  | unearth
  | escape
  | delve
  | convoke
  | cascade
  | storm
  | proliferate
  | landfall
  | constellation
  | devotion
  | annihilator
  | infect
  | wither
  | affinity
  | madness
  | overload
  | crew
  | equip
  | other (s : String)
deriving DecidableEq, Repr

/-- `Keyword::display_name`. -/
def Keyword.display_name : Keyword → String
  | .flying => ("Flying")
  | .trample => ("Trample")
  | .haste => ("Haste")
  | .vigilance => ("Vigilance")
  | .deathtouch => ("Deathtouch")
  | .lifelink => ("Lifelink")
  | .firstStrike => ("First Strike")
  | .doubleStrike => ("Double Strike")
  | .menace => ("Menace")
  | .reach => ("Reach")
  | .flash => ("Flash")
  | .hexproof => ("Hexproof")
  | .indestructible => ("Indestructible")
  | .defender => ("Defender")
  | .ward => ("Ward")
  | .flashback => ("Flashback")
  | .unearth => ("Unearth")
  | .escape => ("Escape")
  | .delve => ("Delve")
  | .convoke => ("Convoke")
  | .cascade => ("Cascade")
  | .storm => ("Storm")
  | .proliferate => ("Proliferate")
  | .landfall => ("Landfall")
  | .constellation => ("Constellation")
  | .devotion => ("Devotion")
  | .annihilator => ("Annihilator")
  | .infect => ("Infect")
  | .wither => ("Wither")
  | .affinity => ("Affinity")
  | .madness => ("Madness")
  | .overload => ("Overload")
  | .crew => ("Crew")
  | .equip => ("Equip")
  | .other s => s

/-- `SynergyRole` of `src/synergy/types.rs`. -/
inductive SynergyRole
  | enabler
  | payoff
  | support
deriving DecidableEq, Repr

/-- `SynergyRelation` of `src/synergy/types.rs`. -/
inductive SynergyRelation
  | enables
  | payoffFor
  | supports
  | combos
deriving DecidableEq, Repr

/-- `CardSynergyProfile` of `src/synergy/types.rs`. -/
structure CardSynergyProfile where
  card_name : String
  themes : List Theme
  keywords : List Keyword
  role : Option SynergyRole
  synergizes_with : List String
  synergy_score : ℚ
deriving DecidableEq, Repr

/-- Rust `Vec::dedup`: remove consecutive duplicates only. -/
def dedupConsec : List String → List String
  | [] => []
  | [a] => [a]
  | a :: b :: rest =>
      if a = b then dedupConsec (b :: rest)
      else a :: dedupConsec (b :: rest)

/-- `ThemeAnalysis` of `src/synergy/types.rs`. -/
structure ThemeAnalysis where
  theme : Theme
  card_count : ℕ
  percentage : ℚ
  enablers : List String
  payoffs : List String
  support : List String
deriving DecidableEq, Repr

/-- `ThemeAnalysis::all_cards`: enablers, payoffs and support chained, with
consecutive duplicates removed (`Vec::dedup`). -/
def ThemeAnalysis.all_cards (t : ThemeAnalysis) : List String :=
  dedupConsec (t.enablers ++ t.payoffs ++ t.support)

/-- `SynergyEdge` of `src/synergy/types.rs`. -/
structure SynergyEdge where
  card_a : String
  card_b : String
  relation : SynergyRelation
  themes : List Theme
  strength : ℚ
  reason : String
deriving DecidableEq, Repr

/-- `SynergyStats` of `src/synergy/types.rs`.  `orphan_cards` holds plain
card names, as built by `RuleBasedDetector::calculate_stats`; the two
`HashMap`s are association lists. -/
structure SynergyStats where
  synergy_density : ℚ
  theme_coverage : ℚ
  orphan_cards : List String
  hub_cards : List String
  theme_coherence : ℚ
  keyword_distribution : List (String × ℕ)
deriving DecidableEq, Repr

/-- `SynergyMatrix` of `src/synergy/types.rs` (the free-text `observations`
report is not consulted by any claim and is omitted). -/
structure SynergyMatrix where
  deck_name : Option String
  deck_format : Option String
  total_cards : ℕ
  unique_cards : ℕ
  detected_themes : List ThemeAnalysis
  primary_theme : Option Theme
  card_profiles : List (String × CardSynergyProfile)
  edges : List SynergyEdge
  stats : SynergyStats
deriving DecidableEq, Repr

/-! ## Keyword and creature-type extraction (src/synergy/keywords.rs) -/

/-- `KEYWORD_PATTERNS` of `src/synergy/keywords.rs`: every pattern is
`(?i)\b...\b`. -/
def KEYWORD_PATTERNS : List (Pat × Keyword) :=
  [ (.word ("flying"), .flying)
  , (.word ("trample"), .trample)
  , (.word ("haste"), .haste)
  , (.word ("vigilance"), .vigilance)
  , (.word ("deathtouch"), .deathtouch)
  , (.word ("lifelink"), .lifelink)
  , (.word ("first strike"), .firstStrike)
  , (.word ("double strike"), .doubleStrike)
  , (.word ("menace"), .menace)
  , (.word ("reach"), .reach)
  , (.word ("flash"), .flash)
  , (.word ("hexproof"), .hexproof)
  , (.word ("indestructible"), .indestructible)
  , (.word ("defender"), .defender)
  , (.word ("ward"), .ward)
  , (.word ("flashback"), .flashback)
  , (.word ("unearth"), .unearth)
  , (.word ("escape"), .escape)
  , (.word ("delve"), .delve)
  , (.word ("convoke"), .convoke)
  , (.word ("cascade"), .cascade)
  , (.word ("storm"), .storm)
  , (.word ("proliferate"), .proliferate)
  , (.word ("landfall"), .landfall)
  , (.word ("constellation"), .constellation)
  , (.word ("devotion"), .devotion)
  , (.word ("annihilator"), .annihilator)
  , (.word ("infect"), .infect)
  , (.word ("wither"), .wither)
  , (.word ("affinity"), .affinity)
  , (.word ("madness"), .madness)
  , (.word ("overload"), .overload)
  , (.word ("crew"), .crew)
  , (.word ("equip"), .equip) ]

/-- `COMMON_CREATURE_TYPES` of `src/synergy/keywords.rs`. -/
def COMMON_CREATURE_TYPES : List String :=
  [ ("Human"), ("Elf"), ("Goblin"), ("Zombie"), ("Vampire"), ("Wizard")
  , ("Soldier"), ("Knight"), ("Dragon"), ("Angel"), ("Demon"), ("Beast")
  , ("Elemental"), ("Spirit"), ("Warrior"), ("Cleric"), ("Rogue")
  , ("Shaman"), ("Merfolk"), ("Bird"), ("Cat"), ("Dinosaur"), ("Sliver")
  , ("Ally"), ("Eldrazi"), ("Faerie"), ("Giant"), ("Horror"), ("Hydra")
  , ("Insect"), ("Ninja"), ("Pirate"), ("Rat"), ("Samurai"), ("Serpent")
  , ("Skeleton"), ("Spider"), ("Treefolk"), ("Werewolf"), ("Wolf")
  , ("Artifact") ]

/-- `"a b".join` of a list of character lists with a single space
(Rust `Vec::join(" ")`). -/
def joinWithSpace : List (List Char) → List Char
  | [] => []
  | [x] => x
  | x :: rest => x ++ ' ' :: joinWithSpace rest

/-- All oracle text of a card, space-joined (original case). -/
def allOracleChars (card : Card) : List Char :=
  joinWithSpace (card.all_oracle_text.map String.data)

/-- All type lines of a card, space-joined (original case). -/
def allTypeChars (card : Card) : List Char :=
  joinWithSpace (card.all_type_lines.map String.data)

/-- `extract_keywords` of `src/synergy/keywords.rs`: match every keyword
pattern against the joined oracle text, deduplicating by display name. -/
def extract_keywords (card : Card) : List Keyword :=
  let all_text := (allOracleChars card).map Char.toLower
  (KEYWORD_PATTERNS.foldl (fun (st : List String × List Keyword) pk =>
    if patMatch pk.1 all_text then
      let key := pk.2.display_name
      if st.1.contains key then st
      else (st.1 ++ [key], st.2 ++ [pk.2])
    else st) ([], [])).2

/-- Rust `str::split(" — ")` (non-overlapping, leftmost-first; the
separator is space, em-dash, space). -/
def splitEmDash : List Char → List Char → List (List Char)
  | cur, ' ' :: '—' :: ' ' :: t => cur.reverse :: splitEmDash [] t
  | cur, c :: t => splitEmDash (c :: cur) t
  | cur, [] => [cur.reverse]

/-- Rust `str::split_whitespace` (no empty words). -/
def splitWs : List Char → List Char → List (List Char)
  | cur, [] => if cur.isEmpty then [] else [cur.reverse]
  | cur, c :: t =>
      if c.isWhitespace then
        if cur.isEmpty then splitWs [] t else cur.reverse :: splitWs [] t
      else splitWs (c :: cur) t

/-- Rust `str::eq_ignore_ascii_case`. -/
def eqIgnoreAsciiCase (a b : List Char) : Bool :=
  (a.map Char.toLower) == (b.map Char.toLower)

/-- `extract_creature_types` of `src/synergy/keywords.rs`: for each type
line containing `"Creature"`, take the segment after the first `" — "`,
and match each whitespace-separated word against the creature-type
whitelist (case-insensitively); finally sort and deduplicate. -/
def extract_creature_types (card : Card) : List String :=
  let types := card.all_type_lines.foldl (fun acc tl =>
    if containsSub ("Creature").data tl.data then
      match (splitEmDash [] tl.data).get? 1 with
      | some subtypes =>
          (splitWs [] subtypes).foldl (fun acc w =>
            acc ++ (COMMON_CREATURE_TYPES.filter
              (fun ct => eqIgnoreAsciiCase w ct.data))) acc
      | none => acc
    else acc) []
  dedupConsec (types.insertionSort (fun a b => ¬ b < a))

namespace Keywords

/-- `is_creature` of `src/synergy/keywords.rs` (case-sensitive, over all
type lines). -/
def is_creature (card : Card) : Bool :=
  card.all_type_lines.any (fun t => containsSub ("Creature").data t.data)

/-- `is_land` of `src/synergy/keywords.rs`. -/
def is_land (card : Card) : Bool :=
  card.all_type_lines.any (fun t => containsSub ("Land").data t.data)

/-- `is_artifact` of `src/synergy/keywords.rs`. -/
def is_artifact (card : Card) : Bool :=
  card.all_type_lines.any (fun t => containsSub ("Artifact").data t.data)

/-- `is_enchantment` of `src/synergy/keywords.rs`. -/
def is_enchantment (card : Card) : Bool :=
  card.all_type_lines.any (fun t => containsSub ("Enchantment").data t.data)

/-- `is_equipment` of `src/synergy/keywords.rs`. -/
def is_equipment (card : Card) : Bool :=
  card.all_type_lines.any (fun t => containsSub ("Equipment").data t.data)

/-- `is_aura` of `src/synergy/keywords.rs`. -/
def is_aura (card : Card) : Bool :=
  card.all_type_lines.any (fun t => containsSub ("Aura").data t.data)

end Keywords

/-! ## Theme detection (src/synergy/themes.rs) -/

/-- `ThemeRule` of `src/synergy/themes.rs`. -/
structure ThemeRule where
  theme : Theme
  oracle_patterns : List Pat
  type_patterns : List Pat
  min_confidence : ℚ
  role_hint : Option SynergyRole

/-- `THEME_RULES` of `src/synergy/themes.rs`, in source order.  Each
`(?i)a.*b` regex becomes `Pat.lits [a, b]` (segments lowercase), each
`(?i)\bw\b` becomes `Pat.word w`. -/
def THEME_RULES : List ThemeRule :=
  [ { theme := .tokens
      oracle_patterns :=
        [ .lits [("create"), ("token")]
        , .lits [("token"), ("enters")]
        , .lits [("for each"), ("token")]
        , .lits [("tokens you control")]
        , .lits [("creature tokens")]
        , .lits [("put"), ("token")]
        , .lits [("tokens get")] ]
      type_patterns := []
      min_confidence := 1/10
      role_hint := none }
  , { theme := .counters .plusOne
      oracle_patterns :=
        [ .lits [("+1/+1 counter")]
        , .lits [("proliferate")]
        , .lits [("with"), ("counters on")]
        , .lits [("counter on it")]
        , .lits [("distribute"), ("counters")]
        , .lits [("move"), ("counter")] ]
      type_patterns := []
      min_confidence := 1/10
      role_hint := none }
  , { theme := .graveyard
      oracle_patterns :=
        [ .lits [("from your graveyard")]
        , .lits [("in your graveyard")]
        , .lits [("return"), ("from"), ("graveyard")]
        , .lits [("cards in your graveyard")]
        , .word ("flashback")
        , .word ("unearth")
        , .word ("escape")
        , .word ("delve")
        , .lits [("exile"), ("from your graveyard")] ]
      type_patterns := []
      min_confidence := 1/10
      role_hint := none }
  , { theme := .sacrifice
      oracle_patterns :=
        [ .lits [("sacrifice a")]
        , .lits [("sacrifice another")]
        , .lits [("when"), ("dies")]
        , .lits [("whenever"), ("dies")]
        , .lits [("sacrifice"), (":")]
        , .lits [("you may sacrifice")] ]
      type_patterns := []
      min_confidence := 1/10
      role_hint := none }
  , { theme := .blink
      oracle_patterns :=
        [ .lits [("exile"), ("return"), ("to the battlefield")]
        , .lits [("flicker")]
        , .lits [("exile"), ("then return")]
        , .lits [("when"), ("enters the battlefield")]
        , .lits [("whenever"), ("enters the battlefield")] ]
      type_patterns := []
      min_confidence := 3/20
      role_hint := none }
  , { theme := .ramp
      oracle_patterns :=
        [ .lits [("search your library for"), ("land")]
        , .lits [("add"), ("mana")]
        , .lits [("put"), ("land"), ("onto the battlefield")]
        , .lits [("additional land")] ]
      type_patterns := []
      min_confidence := 1/10
      role_hint := none }
  , { theme := .draw
      oracle_patterns :=
        [ .lits [("draw"), ("card")]
        , .lits [("draws"), ("card")]
        , .lits [("whenever you draw")]
        , .lits [("for each card you")] ]
      type_patterns := []
      min_confidence := 1/10
      role_hint := none }
  , { theme := .removal
      oracle_patterns :=
        [ .lits [("destroy target")]
        , .lits [("exile target")]
        , .lits [("deals"), ("damage to")]
        , .lits [("target creature gets -")]
        , .lits [("return target"), ("to"), ("owner")] ]
      type_patterns := []
      min_confidence := 1/10
      role_hint := none }
  , { theme := .lifegain
      oracle_patterns :=
        [ .lits [("you gain"), ("life")]
        , .lits [("gain"), ("life")]
        , .lits [("whenever you gain life")]
        , .word ("lifelink") ]
      type_patterns := []
      min_confidence := 1/10
      role_hint := none }
  , { theme := .discard
      oracle_patterns :=
        [ .lits [("target"), ("discard")]
        , .lits [("opponent"), ("discard")]
        , .lits [("whenever"), ("discard")]
        , .lits [("discard a card")]
        , .word ("madness") ]
      type_patterns := []
      min_confidence := 1/10
      role_hint := none }
  , { theme := .mill
      oracle_patterns :=
        [ .lits [("mill")]
        , .lits [("put"), ("cards from"), ("library into"), ("graveyard")]
        , .lits [("cards in your library")] ]
      type_patterns := []
      min_confidence := 1/10
      role_hint := none }
  , { theme := .reanimator
      oracle_patterns :=
        [ .lits [("return"), ("creature"), ("from"), ("graveyard"),
            ("to the battlefield")]
        , .lits [("put"), ("creature"), ("from"),
            ("graveyard onto the battlefield")]
        , .lits [("reanimate")] ]
      type_patterns := []
      min_confidence := 1/10
      role_hint := none }
  , { theme := .spellslinger
      oracle_patterns :=
        [ .lits [("whenever you cast an instant or sorcery")]
        , .lits [("instant and sorcery")]
        , .lits [("noncreature spell")]
        , .word ("storm")
        , .lits [("copy"), ("instant")]
        , .lits [("copy"), ("sorcery")] ]
      type_patterns := []
      min_confidence := 1/10
      role_hint := none }
  , { theme := .aristocrats
      oracle_patterns :=
        [ .lits [("whenever"), ("creature"), ("dies")]
        , .lits [("whenever another"), ("dies")]
        , .lits [("sacrifice"), ("creature")] ]
      type_patterns := []
      min_confidence := 3/20
      role_hint := none }
  , { theme := .voltron
      oracle_patterns :=
        [ .lits [("equipped creature")]
        , .lits [("enchanted creature")]
        , .lits [("commander deals combat damage")] ]
      type_patterns :=
        [ .lits [("equipment")]
        , .lits [("aura")] ]
      min_confidence := 1/10
      role_hint := none } ]

/-- `detect_card_themes` of `src/synergy/themes.rs` (lines 253–310):
per-rule pattern counting with a confidence threshold, then the
unconditional type-line-derived themes. -/
def detect_card_themes (card : Card) :
    List (Theme × ℚ × Option SynergyRole) :=
  let textL := (allOracleChars card).map Char.toLower
  let typesL := (allTypeChars card).map Char.toLower
  let base := THEME_RULES.foldl (fun acc rule =>
    let oracle_matches :=
      (rule.oracle_patterns.filter (fun p => patMatch p textL)).length
    let type_matches :=
      (rule.type_patterns.filter (fun p => patMatch p typesL)).length
    let total_patterns : ℕ :=
      rule.oracle_patterns.length + rule.type_patterns.length
    let total_matches : ℕ := oracle_matches + type_matches
    if 0 < total_matches then
      let confidence : ℚ := (total_matches : ℚ) / (total_patterns : ℚ)
      if rule.min_confidence ≤ confidence then
        acc ++ [(rule.theme, confidence, rule.role_hint)]
      else acc
    else acc) []
  let base := if Keywords.is_equipment card then
    base ++ [(Theme.equipment, 1, some .support)] else base
  let base := if Keywords.is_aura card then
    base ++ [(Theme.auras, 1, some .support)] else base
  let base := if Keywords.is_artifact card && !(Keywords.is_equipment card)
      && containsSub ("artifact").data textL then
    base ++ [(Theme.artifacts, 1/2, none)] else base
  let base := if Keywords.is_enchantment card && !(Keywords.is_aura card)
      && containsSub ("enchantment").data textL then
    base ++ [(Theme.enchantments, 1/2, none)] else base
  let base := if Keywords.is_land card
      && containsSub ("land").data textL then
    base ++ [(Theme.lands, 1/2, none)] else base
  base

/-- `detect_tribal_themes` of `src/synergy/themes.rs` (lines 313–338):
keep every creature type with `count ≥ 8` or `percentage ≥ 0.30`
(percentage 0 when there are no creatures), sorted by count descending
(stable sort). -/
def detect_tribal_themes (creature_type_counts : List (String × ℕ))
    (total_creatures : ℕ) : List (Theme × ℕ × ℚ) :=
  let filtered := creature_type_counts.filterMap (fun tc =>
    let percentage : ℚ :=
      if 0 < total_creatures then (tc.2 : ℚ) / (total_creatures : ℚ) else 0
    if 8 ≤ tc.2 ∨ (3 : ℚ)/10 ≤ percentage then
      some (Theme.tribal tc.1, tc.2, percentage)
    else none)
  filtered.insertionSort (fun a b => b.2.1 ≤ a.2.1)

/-- `classify_card_role` of `src/synergy/themes.rs` (lines 341–403):
first-match-wins substring tests on the lowercased joined oracle text. -/
def classify_card_role (card : Card) (theme : Theme) : SynergyRole :=
  let t := (allOracleChars card).map Char.toLower
  let has := fun (s : String) => containsSub s.data t
  match theme with
  | .tokens =>
      if has ("create") && has ("token") then .enabler
      else if has ("tokens you control") || has ("for each")
          || has ("tokens get") then .payoff
      else .support
  | .counters _ =>
      if has ("put") && has ("counter") then .enabler
      else if has ("with") && has ("counter") then .payoff
      else .support
  | .graveyard =>
      if has ("mill") || has ("discard") then .enabler
      else if has ("from your graveyard") || has ("flashback")
          || has ("escape") then .payoff
      else .support
  | .sacrifice =>
      if has ("create") && has ("token") then .enabler
      else if has ("when") && has ("dies") then .payoff
      else .support
  | .lifegain =>
      if has ("gain") && has ("life") then .enabler
      else if has ("whenever you gain life") then .payoff
      else .support
  | _ => .support

/-! ## The rule-based synergy detector (src/synergy/detector.rs)

`HashMap`s keyed by card name or theme are modelled as association lists in
insertion order; `HashMap::insert` replaces in place, `entry().or_*` appends
a missing key at the end.  Every claim proved about the detector is
invariant under the iteration order of these maps. -/

/-- `HashMap::insert` on the association-list model. -/
def insertAssoc {β : Type} : List (String × β) → String → β →
    List (String × β)
  | [], k, v => [(k, v)]
  | (k', v') :: rest, k, v =>
      if k' = k then (k, v) :: rest
      else (k', v') :: insertAssoc rest k v

/-- `HashMap::get` on the association-list model. -/
def lookupAssoc {β : Type} : List (String × β) → String → Option β
  | [], _ => none
  | (k', v) :: rest, k => if k' = k then some v else lookupAssoc rest k

/-- `*counts.entry(k).or_insert(0) += q` on the association-list model. -/
def bumpAssocNat : List (String × ℕ) → String → ℕ → List (String × ℕ)
  | [], k, q => [(k, q)]
  | (k', v) :: rest, k, q =>
      if k' = k then (k', v + q) :: rest
      else (k', v) :: bumpAssocNat rest k q

/-- `theme_cards.entry(theme).or_default().push(name)` on the
association-list model. -/
def pushThemeCard : List (Theme × List String) → Theme → String →
    List (Theme × List String)
  | [], t, n => [(t, [n])]
  | (t', l) :: rest, t, n =>
      if t' = t then (t', l ++ [n]) :: rest
      else (t', l) :: pushThemeCard rest t n

/-- `theme_cards.insert(theme, cards)` on the association-list model. -/
def insertThemeCards : List (Theme × List String) → Theme → List String →
    List (Theme × List String)
  | [], t, l => [(t, l)]
  | (t', l') :: rest, t, l =>
      if t' = t then (t, l) :: rest
      else (t', l') :: insertThemeCards rest t l

/-- `RuleBasedDetector` of `src/synergy/detector.rs`. -/
structure RuleBasedDetector where
  min_theme_cards : ℕ
deriving DecidableEq, Repr

/-- `RuleBasedDetector::new` (default significance threshold 5). -/
def RuleBasedDetector.new : RuleBasedDetector := ⟨5⟩

/-- `RuleBasedDetector::with_min_theme_cards`. -/
def RuleBasedDetector.with_min_theme_cards (min_cards : ℕ) :
    RuleBasedDetector := ⟨min_cards⟩

/-- The profile built for one hydrated card inside
`RuleBasedDetector::build_card_profiles`: keywords, detected themes, and
the first non-null role hint. -/
def mkProfile (card : Card) : CardSynergyProfile :=
  let detected := detect_card_themes card
  { card_name := card.name
    themes := detected.map (fun d => d.1)
    keywords := extract_keywords card
    role := detected.findSome? (fun d => d.2.2)
    synergizes_with := []
    synergy_score := 0 }

/-- `RuleBasedDetector::build_card_profiles` (lines 37–61): one profile per
hydrated mainboard (or commander) entry, keyed by card name. -/
def RuleBasedDetector.build_card_profiles (deck : DeckList) :
    List (String × CardSynergyProfile) :=
  deck.mainboard.foldl (fun profiles e =>
    match e.card with
    | none => profiles
    | some card => insertAssoc profiles card.name (mkProfile card)) []

/-- The creature-type counting loop of
`RuleBasedDetector::aggregate_themes` (lines 82–94): per-type counts
(weighted by entry quantity) and the total creature count. -/
def creatureTypeCounts (deck : DeckList) : List (String × ℕ) × ℕ :=
  deck.mainboard.foldl (fun (st : List (String × ℕ) × ℕ) e =>
    match e.card with
    | none => st
    | some card =>
        if Keywords.is_creature card then
          ((extract_creature_types card).foldl
            (fun counts ty => bumpAssocNat counts ty e.quantity) st.1,
           st.2 + e.quantity)
        else st) ([], 0)

/-- The tribal-member collection loop of
`RuleBasedDetector::aggregate_themes` (lines 105–113): card names (one per
matching hydrated mainboard entry, duplicates possible). -/
def tribalCardsFor (deck : DeckList) (tribe : String) : List String :=
  deck.mainboard.foldl (fun acc e =>
    match e.card with
    | none => acc
    | some card =>
        if (extract_creature_types card).contains tribe then
          acc ++ [card.name]
        else acc) []

/-- The enabler/payoff/support classification loop of
`RuleBasedDetector::aggregate_themes` (lines 131–154). -/
def classifyInto (deck : DeckList)
    (profiles : List (String × CardSynergyProfile)) (theme : Theme)
    (cards : List String) : List String × List String × List String :=
  cards.foldl (fun (eps : List String × List String × List String)
      card_name =>
    if (lookupAssoc profiles card_name).isSome then
      match deck.mainboard.find? (fun ent =>
        match ent.card with
        | some c => c.name = card_name
        | none => false) with
      | some ent =>
          match ent.card with
          | some card =>
              match classify_card_role card theme with
              | .enabler => (eps.1 ++ [card_name], eps.2.1, eps.2.2)
              | .payoff => (eps.1, eps.2.1 ++ [card_name], eps.2.2)
              | .support => (eps.1, eps.2.1, eps.2.2 ++ [card_name])
          | none => eps
      | none => eps
    else eps) ([], [], [])

/-- `RuleBasedDetector::aggregate_themes` (lines 64–163): group card names
by theme, merge tribal themes in, drop themes below the significance
threshold, classify members into roles, and sort by card count
descending. -/
def RuleBasedDetector.aggregate_themes (self : RuleBasedDetector)
    (profiles : List (String × CardSynergyProfile)) (deck : DeckList) :
    List ThemeAnalysis :=
  let theme_cards := profiles.foldl (fun tc p =>
    p.2.themes.foldl (fun tc theme => pushThemeCard tc theme p.1) tc) []
  let ct := creatureTypeCounts deck
  let tribal_themes := detect_tribal_themes ct.1 ct.2
  let theme_cards := tribal_themes.foldl (fun tc trip =>
    match trip.1 with
    | Theme.tribal tribe =>
        let tribal_cards := tribalCardsFor deck tribe
        if tribal_cards.isEmpty then tc
        else insertThemeCards tc (Theme.tribal tribe) tribal_cards
    | _ => tc) theme_cards
  let total_cards := deck.total_cards
  let analyses := (theme_cards.filter
      (fun tc => self.min_theme_cards ≤ tc.2.length)).map (fun tc =>
    let eps := classifyInto deck profiles tc.1 tc.2
    { theme := tc.1
      card_count := tc.2.length
      percentage := (tc.2.length : ℚ) / (total_cards : ℚ)
      enablers := eps.1
      payoffs := eps.2.1
      support := eps.2.2 })
  analyses.insertionSort (fun a b => b.card_count ≤ a.card_count)

/-- The `i < j` pair enumeration of `RuleBasedDetector::build_edges`. -/
def listPairs {α : Type} : List α → List (α × α)
  | [] => []
  | x :: rest => rest.map (fun y => (x, y)) ++ listPairs rest

/-- The normalized (lexicographically ordered) form of a card pair. -/
def normPair (a b : String) : String × String :=
  if a < b then (a, b) else (b, a)

/-- The `SynergyEdge` pushed for one fresh pair of a theme. -/
def edgeFor (t : ThemeAnalysis) (a b : String) : SynergyEdge :=
  { card_a := a
    card_b := b
    relation :=
      if t.enablers.contains a && t.payoffs.contains b then .enables
      else if t.payoffs.contains a && t.enablers.contains b then .payoffFor
      else .supports
    themes := [t.theme]
    strength := 1/2
    reason := ("Both support ") ++ t.theme.display_name ++ (" theme") }

/-- One iteration of the pair loop of `RuleBasedDetector::build_edges`:
skip a pair whose normalized form was already seen (for ANY theme),
otherwise record it and push the edge. -/
def edgeStep (t : ThemeAnalysis)
    (st : List SynergyEdge × List (String × String)) (p : String × String) :
    List SynergyEdge × List (String × String) :=
  let pair := normPair p.1 p.2
  if pair ∈ st.2 then st
  else (st.1 ++ [edgeFor t p.1 p.2], st.2 ++ [pair])

/-- `RuleBasedDetector::build_edges` (lines 166–226). -/
def RuleBasedDetector.build_edges
    (_profiles : List (String × CardSynergyProfile))
    (themes : List ThemeAnalysis) : List SynergyEdge :=
  (themes.foldl (fun st t => (listPairs t.all_cards).foldl (edgeStep t) st)
    ([], [])).1

/-- `RuleBasedDetector::calculate_stats` (lines 229–297). -/
def RuleBasedDetector.calculate_stats
    (profiles : List (String × CardSynergyProfile))
    (edges : List SynergyEdge) (deck : DeckList) : SynergyStats :=
  let total_cards := deck.unique_cards
  let possible_edges : ℕ :=
    if 1 < total_cards then (total_cards * (total_cards - 1)) / 2 else 0
  let themed_count := (profiles.filter (fun p => !p.2.themes.isEmpty)).length
  let cards_in_edges := edges.flatMap (fun e => [e.card_a, e.card_b])
  let orphan_cards := (profiles.map (fun p => p.1)).filter
    (fun n => !(cards_in_edges.contains n))
  let edge_counts := edges.foldl (fun ec e =>
    bumpAssocNat (bumpAssocNat ec e.card_a 1) e.card_b 1) []
  let hub_cards := ((edge_counts.insertionSort
    (fun a b => b.2 ≤ a.2)).take 5).map (fun p => p.1)
  let keyword_dist := profiles.foldl (fun kd p =>
    p.2.keywords.foldl (fun kd kw => bumpAssocNat kd kw.display_name 1) kd) []
  { synergy_density :=
      if 0 < possible_edges then (edges.length : ℚ) / (possible_edges : ℚ)
      else 0
    theme_coverage :=
      if 0 < total_cards then (themed_count : ℚ) / (total_cards : ℚ)
      else 0
    orphan_cards := orphan_cards
    hub_cards := hub_cards
    theme_coherence := 0
    keyword_distribution := keyword_dist }

/-- `RuleBasedDetector::analyze` (lines 363–393). -/
def RuleBasedDetector.analyze (self : RuleBasedDetector) (deck : DeckList) :
    SynergyMatrix :=
  let card_profiles := RuleBasedDetector.build_card_profiles deck
  let detected_themes := self.aggregate_themes card_profiles deck
  let edges := RuleBasedDetector.build_edges card_profiles detected_themes
  let stats := RuleBasedDetector.calculate_stats card_profiles edges deck
  { deck_name := deck.name
    deck_format := deck.format
    total_cards := deck.total_cards
    unique_cards := deck.unique_cards
    detected_themes := detected_themes
    primary_theme := detected_themes.head?.map (fun t => t.theme)
    card_profiles := card_profiles
    edges := edges
    stats := stats }

/-! ## Claim-side definitions and concrete inputs for the analysis claims -/

instance : Inhabited ThemeAnalysis :=
  ⟨⟨Theme.tokens, 0, 0, [], [], []⟩⟩

/-- A vanilla creature card of the `Elf` subtype with no oracle text (it
matches no theme rule and no keyword pattern). -/
def elfCard (nm : String) : Card :=
  ⟨nm, nm, none, 2, ("Creature — Elf"), none, none⟩

/-- A hydrated mainboard entry for an `Elf` card. -/
def elfEntry (nm : String) (q : ℕ) : DeckEntry :=
  ⟨q, nm, some (elfCard nm), DeckSection.mainboard⟩

/-- Five deck entries covering only four distinct Elf cards (the last card
appears in two entries); eight Elf creatures in total, so the Elf tribal
theme fires, and its member list has five (non-distinct) names. -/
def c4Deck : DeckList :=
  { name := none
    format := none
    entries :=
      [ elfEntry ("Elf One") 2
      , elfEntry ("Elf Two") 2
      , elfEntry ("Elf Three") 2
      , elfEntry ("Elf Four") 1
      , elfEntry ("Elf Four") 1 ]
    source := .manual
    excludes_lands := false }

/-- The projection of a `ThemeAnalysis` that drops the `percentage` field. -/
def themeData (a : ThemeAnalysis) :
    Theme × ℕ × List String × List String × List String :=
  (a.theme, a.card_count, a.enablers, a.payoffs, a.support)

/-- The sub-decklist of hydrated entries. -/
def DeckList.hydratedOnly (d : DeckList) : DeckList :=
  { d with entries := d.entries.filter (fun e => e.card.isSome) }

/-- Eight distinct one-copy Elf cards: the Elf tribal theme fires with
percentage 8/8 = 1. -/
def c9DeckH : DeckList :=
  { name := none
    format := none
    entries :=
      [ elfEntry ("Elf A") 1
      , elfEntry ("Elf B") 1
      , elfEntry ("Elf C") 1
      , elfEntry ("Elf D") 1
      , elfEntry ("Elf E") 1
      , elfEntry ("Elf F") 1
      , elfEntry ("Elf G") 1
      , elfEntry ("Elf H") 1 ]
    source := .manual
    excludes_lands := false }

/-- `c9DeckH` plus one quantity-8 entry whose card is `None`: the extra
unhydrated entry doubles `total_cards`, halving the tribal theme's
percentage. -/
def c9DeckN : DeckList :=
  { c9DeckH with entries :=
      c9DeckH.entries ++ [⟨8, ("Unresolved Card"), none,
        DeckSection.mainboard⟩] }

/-- Two surviving theme analyses sharing the same two support cards. -/
def c6Themes : List ThemeAnalysis :=
  [ ⟨Theme.tokens, 2, 0, [], [], [("Card A"), ("Card B")]⟩
  , ⟨Theme.graveyard, 2, 0, [], [], [("Card A"), ("Card B")]⟩ ]

/-- Three card profiles, of which only the first two sit on an edge. -/
def c7Profiles : List (String × CardSynergyProfile) :=
  [ (("Card A"), ⟨("Card A"), [Theme.tokens], [], none, [], 0⟩)
  , (("Card B"), ⟨("Card B"), [Theme.tokens], [], none, [], 0⟩)
  , (("Card C"), ⟨("Card C"), [], [], none, [], 0⟩) ]

/-- A single edge joining the first two profile cards. -/
def c7Edges : List SynergyEdge :=
  [ ⟨("Card A"), ("Card B"), .supports, [Theme.tokens], 1/2,
      ("Both support Tokens theme")⟩ ]

/-- An empty decklist (only `unique_cards` of the deck feeds
`calculate_stats`, and no claim depends on it). -/
def c7Deck : DeckList :=
  { name := none
    format := none
    entries := []
    source := .manual
    excludes_lands := false }

/-- Rebuild a mana-cost string from brace-free tokens: `{t1}{t2}...`. -/
def renderTokens (toks : List (List Char)) : List Char :=
  toks.foldr (fun t acc => '{' :: (t ++ '}' :: acc)) []

/-- Modelled from the claim's wording (C8): a token containing `'/'`
contributes 0.5 to each named color side; a plain color-letter token
(W/U/B/R/G/C) contributes 1.0; any other token contributes nothing. -/
def claimTokenPips (t : List Char) : ColorPipBreakdown :=
  if t.contains '/' then
    (splitSlash [] t).foldl
      (fun bd side => addPipForSymbol bd side (1 / 2)) ColorPipBreakdown.zero
  else addPipForSymbol ColorPipBreakdown.zero t 1

/-- Scale every component of a breakdown by a quantity. -/
def scaleBd (q : ℕ) (bd : ColorPipBreakdown) : ColorPipBreakdown :=
  ⟨bd.white * q, bd.blue * q, bd.black * q,
   bd.red * q, bd.green * q, bd.colorless * q⟩

/-- Replace a card's faces with `None`. -/
def Card.stripFaces (c : Card) : Card :=
  { c with card_faces := none }

/-- Strip the faces of every hydrated card of a decklist. -/
def DeckList.stripFaces (d : DeckList) : DeckList :=
  { d with entries := d.entries.map (fun e =>
      { e with card := e.card.map Card.stripFaces }) }

/-- A quantity-3 double-faced card whose top-level type line is `Sorcery`
while its back face is a `Land`; and a quantity-2 card whose top-level type
line is `Instant` while its back face is a `Creature`. -/
def c10Deck : DeckList :=
  { name := none
    format := none
    entries :=
      [ ⟨3, ("Front Sorcery"),
          some ⟨("dfc1"), ("Front Sorcery"), some ("{1}{B}"), 2,
            ("Sorcery"), some ("Exile target creature."),
            some [⟨("Back Land"), none, some ("Land"), none⟩]⟩,
          DeckSection.mainboard⟩
      , ⟨2, ("Front Instant"),
          some ⟨("dfc2"), ("Front Instant"), some ("{U}"), 1,
            ("Instant"), some ("Draw a card."),
            some [⟨("Back Creature"), none, some ("Creature — Human"),
              none⟩]⟩,
          DeckSection.mainboard⟩ ]
    source := .manual
    excludes_lands := false }

/-! ## Correctness of the shared allocation pipeline -/

theorem sum_update_add_one (g : Color → ℕ) (c : Color) :
    (∑ x : Color, Function.update g c (g c + 1) x) = (∑ x : Color, g x) + 1 := by
  rw [Finset.sum_update_of_mem (Finset.mem_univ c)]
  rw [Finset.sdiff_singleton_eq_erase]
  rw [← Finset.sum_erase_add Finset.univ g (Finset.mem_univ c)]
  ring

/-- Each unit handed out by the leftover-slot distribution loop raises the
total basic-land count by exactly one, until either the budget or the sorted
fractional-part list is exhausted. -/
theorem sum_applyAdds (l : List (Color × Option ℚ)) :
    ∀ (g : Color → ℕ) (k : ℕ),
      (∑ c : Color, applyAdds g l k c) = (∑ c : Color, g c) + min k l.length := by
  induction l with
  | nil =>
      intro g k
      cases k <;> simp [applyAdds]
  | cons p rest ih =>
      intro g k
      cases k with
      | zero => simp [applyAdds]
      | succ k =>
          rw [show applyAdds g (p :: rest) (k + 1)
              = applyAdds (Function.update g p.1 (g p.1 + 1)) rest k from rfl]
          rw [ih, sum_update_add_one]
          simp only [List.length_cons]
          omega

theorem remainingFor_nonneg (colors : List Color) (percF : Color → Option ℚ)
    (duals : List DualLand) (target : ℕ) (c : Color) :
    0 ≤ remainingFor colors percF duals target c := by
  unfold remainingFor
  split
  · cases percF c with
    | none => simp
    | some p => simp [le_max_right]
  · simp

theorem remainingFor_eq_zero_of_not_mem (colors : List Color)
    (percF : Color → Option ℚ) (duals : List DualLand) (target : ℕ)
    (c : Color) (hc : c ∉ colors) :
    remainingFor colors percF duals target c = 0 := by
  unfold remainingFor
  simp [hc]

theorem totalRemaining_eq_sum_toFinset (colors : List Color)
    (percF : Color → Option ℚ) (duals : List DualLand) (target : ℕ) :
    totalRemaining colors percF duals target
      = ∑ c ∈ colors.toFinset, remainingFor colors percF duals target c := by
  unfold totalRemaining
  symm
  refine Finset.sum_subset (Finset.subset_univ _) ?_
  intro c _ hc
  exact remainingFor_eq_zero_of_not_mem colors percF duals target c
    (by simpa using hc)

theorem totalRemaining_nonneg (colors : List Color)
    (percF : Color → Option ℚ) (duals : List DualLand) (target : ℕ) :
    0 ≤ totalRemaining colors percF duals target :=
  Finset.sum_nonneg fun c _ => remainingFor_nonneg colors percF duals target c

/-- The exact rational value of a `basic_counts` entry, on inputs whose
percentages are not NaN (proof-side helper). -/
def bcValue (colors : List Color) (pc : Color → ℚ) (duals : List DualLand)
    (target : ℕ) (percF : Color → Option ℚ) (c : Color) : ℚ :=
  let B : ℚ := (slotBudget duals target : ℚ)
  let R : ℚ := totalRemaining colors percF duals target
  if B ≤ R then
    remainingFor colors percF duals target c * (if 0 < R then B / R else 0)
  else
    if c ∈ colors then
      remainingFor colors percF duals target c + (B - R) * pc c
    else 0

theorem basicCountsF_eq_some (colors : List Color) (percF : Color → Option ℚ)
    (duals : List DualLand) (target : ℕ) (pc : Color → ℚ)
    (hperc : ∀ c ∈ colors, percF c = some (pc c)) (c : Color) :
    basicCountsF colors percF duals target c
      = some (bcValue colors pc duals target percF c) := by
  by_cases hBR : (slotBudget duals target : ℚ)
      ≤ totalRemaining colors percF duals target
  · simp [basicCountsF, bcValue, hBR]
  · by_cases hc : c ∈ colors
    · simp [basicCountsF, bcValue, hBR, hc, hperc c hc]
    · simp [basicCountsF, bcValue, hBR, hc]

theorem bcValue_nonneg (colors : List Color) (percF : Color → Option ℚ)
    (duals : List DualLand) (target : ℕ) (pc : Color → ℚ)
    (hpos : ∀ c ∈ colors, 0 ≤ pc c) (c : Color) :
    0 ≤ bcValue colors pc duals target percF c := by
  by_cases hBR : (slotBudget duals target : ℚ)
      ≤ totalRemaining colors percF duals target
  · simp only [bcValue, if_pos hBR]
    refine mul_nonneg (remainingFor_nonneg _ _ _ _ _) ?_
    split
    · next h0 => exact div_nonneg (Nat.cast_nonneg _) (le_of_lt h0)
    · exact le_rfl
  · by_cases hc : c ∈ colors
    · simp only [bcValue, if_neg hBR, if_pos hc]
      have h1 : 0 ≤ (slotBudget duals target : ℚ)
          - totalRemaining colors percF duals target := by
        have := not_le.mp hBR
        linarith
      have h2 := mul_nonneg h1 (hpos c hc)
      have h3 := remainingFor_nonneg colors percF duals target c
      linarith
    · simp [bcValue, hBR, hc]

/-- On percentage maps that sum to 1 over a duplicate-free color list, the
`basic_counts` values sum exactly to the basic-slot budget — both in the
over-constrained branch (proportional scale-down) and in the
under-constrained branch (extras distributed by percentage). -/
theorem sum_bcValue (colors : List Color) (percF : Color → Option ℚ)
    (duals : List DualLand) (target : ℕ) (pc : Color → ℚ)
    (hsum : (∑ c ∈ colors.toFinset, pc c) = 1) :
    (∑ c ∈ colors.toFinset, bcValue colors pc duals target percF c)
      = (slotBudget duals target : ℚ) := by
  by_cases hBR : (slotBudget duals target : ℚ)
      ≤ totalRemaining colors percF duals target
  · simp only [bcValue, if_pos hBR]
    rw [← Finset.sum_mul, ← totalRemaining_eq_sum_toFinset]
    by_cases h0 : 0 < totalRemaining colors percF duals target
    · rw [if_pos h0]
      field_simp
    · rw [if_neg h0]
      have hR0 : totalRemaining colors percF duals target = 0 :=
        le_antisymm (not_lt.mp h0) (totalRemaining_nonneg _ _ _ _)
      have hB0 : (slotBudget duals target : ℚ) = 0 := by
        have := Nat.cast_nonneg (α := ℚ) (slotBudget duals target)
        rw [hR0] at hBR
        linarith
      rw [hB0]
      ring
  · have hmem : ∀ c ∈ colors.toFinset,
        bcValue colors pc duals target percF c
          = remainingFor colors percF duals target c
            + ((slotBudget duals target : ℚ)
              - totalRemaining colors percF duals target) * pc c := by
      intro c hc
      simp only [bcValue, if_neg hBR, if_pos (List.mem_toFinset.mp hc)]
    rw [Finset.sum_congr rfl hmem, Finset.sum_add_distrib,
      ← Finset.mul_sum, hsum, ← totalRemaining_eq_sum_toFinset]
    ring

/-- Main correctness lemma for the shared allocation pipeline: given a
never-NaN percentage map that is nonnegative and sums to 1 over a nonempty,
duplicate-free color list, the pipeline does not panic and the rounded basic
counts sum exactly to the basic-slot budget (largest-remainder exactness). -/
theorem allocate_eq_some (colors : List Color) (percF : Color → Option ℚ)
    (duals : List DualLand) (target : ℕ) (pc : Color → ℚ)
    (hnd : colors.Nodup) (hne : colors ≠ [])
    (hperc : ∀ c ∈ colors, percF c = some (pc c))
    (hpos : ∀ c ∈ colors, 0 ≤ pc c)
    (hsum : (∑ c ∈ colors.toFinset, pc c) = 1) :
    ∃ basics, allocate colors percF duals target = some basics ∧
      (∑ c : Color, basics c) = slotBudget duals target := by
  have hbc := basicCountsF_eq_some colors percF duals target pc hperc
  have hbv := bcValue_nonneg colors percF duals target pc hpos
  have hfloor0 : ∀ c, 0 ≤ ⌊bcValue colors pc duals target percF c⌋ :=
    fun c => Int.floor_nonneg.mpr (hbv c)
  -- the floored counts, as rationals
  have hflr : ∀ c, ((flooredOf colors percF duals target c : ℕ) : ℚ)
      = (⌊bcValue colors pc duals target percF c⌋ : ℚ) := by
    intro c
    have h : flooredOf colors percF duals target c
        = (⌊bcValue colors pc duals target percF c⌋).toNat := by
      unfold flooredOf
      rw [hbc c]
    rw [h]
    exact_mod_cast Int.toNat_of_nonneg (hfloor0 c)
  -- the rounded total, as a rational, is the sum of the floors
  have hFsum : ((colors.map (flooredOf colors percF duals target)).sum : ℚ)
      = ∑ c ∈ colors.toFinset,
          (⌊bcValue colors pc duals target percF c⌋ : ℚ) := by
    rw [Nat.cast_list_sum, List.map_map]
    simp only [Function.comp_def]
    rw [List.map_congr_left (fun c _ => hflr c)]
    rw [← List.sum_toFinset _ hnd]
  -- the floors never over-shoot the budget
  have hFle : (colors.map (flooredOf colors percF duals target)).sum
      ≤ slotBudget duals target := by
    have h1 : ((colors.map (flooredOf colors percF duals target)).sum : ℚ)
        ≤ (slotBudget duals target : ℚ) := by
      rw [hFsum, ← sum_bcValue colors percF duals target pc hsum]
      exact Finset.sum_le_sum fun c _ => Int.floor_le _
    exact_mod_cast h1
  -- the rounding shortfall is strictly below the number of colors
  have hKlt : slotBudget duals target
      - (colors.map (flooredOf colors percF duals target)).sum
      < colors.length := by
    have h1 : (slotBudget duals target : ℚ)
        - ((colors.map (flooredOf colors percF duals target)).sum : ℚ)
        = ∑ c ∈ colors.toFinset,
            (bcValue colors pc duals target percF c
              - (⌊bcValue colors pc duals target percF c⌋ : ℚ)) := by
      rw [Finset.sum_sub_distrib, ← hFsum,
        sum_bcValue colors percF duals target pc hsum]
    have h2 : (∑ c ∈ colors.toFinset,
        (bcValue colors pc duals target percF c
          - (⌊bcValue colors pc duals target percF c⌋ : ℚ)))
        < ∑ _c ∈ colors.toFinset, (1 : ℚ) := by
      refine Finset.sum_lt_sum_of_nonempty ?_ ?_
      · obtain ⟨c0, hc0⟩ := List.exists_mem_of_ne_nil colors hne
        exact ⟨c0, List.mem_toFinset.mpr hc0⟩
      · intro c _
        have := Int.fract_lt_one (bcValue colors pc duals target percF c)
        rw [Int.fract] at this
        exact this
    have h3 : (∑ _c ∈ colors.toFinset, (1 : ℚ)) = (colors.length : ℚ) := by
      rw [Finset.sum_const, List.toFinset_card_of_nodup hnd]
      simp
    have h4 : (slotBudget duals target : ℚ)
        - ((colors.map (flooredOf colors percF duals target)).sum : ℚ)
        < (colors.length : ℚ) := by
      rw [h1]
      rw [h3] at h2
      exact h2
    have h5 : ((slotBudget duals target
        - (colors.map (flooredOf colors percF duals target)).sum : ℕ) : ℚ)
        < (colors.length : ℚ) := by
      rw [Nat.cast_sub hFle]
      exact h4
    exact_mod_cast h5
  -- the fractional-part sort never sees a NaN, so the pipeline returns `some`
  have hany : ((fracPartsOf colors percF duals target).any
      (fun p => p.2.isNone)) = false := by
    rw [List.any_eq_false]
    intro x hx
    unfold fracPartsOf at hx
    obtain ⟨c, _, rfl⟩ := List.mem_map.mp hx
    rw [hbc c]
    simp
  have hcond : ¬(2 ≤ (fracPartsOf colors percF duals target).length ∧
      ((fracPartsOf colors percF duals target).any
        (fun p => p.2.isNone)) = true) := by
    rintro ⟨-, h2⟩
    rw [hany] at h2
    cases h2
  have hall : allocate colors percF duals target
      = some (applyAdds
          (fun c => if c ∈ colors then flooredOf colors percF duals target c
            else 0)
          ((fracPartsOf colors percF duals target).insertionSort
            (fun p q => (q.2.getD 0) ≤ (p.2.getD 0)))
          (slotBudget duals target
            - (colors.map (flooredOf colors percF duals target)).sum)) := by
    simp only [allocate]
    rw [if_neg hcond]
  refine ⟨_, hall, ?_⟩
  rw [sum_applyAdds]
  have hb0 : (∑ c : Color,
      (if c ∈ colors then flooredOf colors percF duals target c else 0))
      = (colors.map (flooredOf colors percF duals target)).sum := by
    rw [← Finset.sum_filter]
    have hset : (Finset.univ.filter (fun c : Color => c ∈ colors))
        = colors.toFinset := by
      ext c
      simp [List.mem_toFinset]
    rw [hset]
    exact List.sum_toFinset _ hnd
  have hlen : ((fracPartsOf colors percF duals target).insertionSort
      (fun p q => (q.2.getD 0) ≤ (p.2.getD 0))).length = colors.length := by
    rw [List.length_insertionSort]
    unfold fracPartsOf
    rw [List.length_map]
  rw [hb0, hlen, min_eq_left (le_of_lt hKlt)]
  omega

/-- For a deck whose pip map counts only listed colors, the pip counts over
the color list's underlying set sum to the global pip total. -/
theorem sum_mana_symbols_toFinset (d : Deck)
    (hsupp : ∀ c, d.mana_symbols c ≠ 0 → c ∈ d.colors) :
    (∑ c ∈ d.colors.toFinset, (d.mana_symbols c : ℚ))
      = (d.total_mana_symbols : ℚ) := by
  unfold Deck.total_mana_symbols
  rw [Nat.cast_sum]
  refine Finset.sum_subset (Finset.subset_univ _) ?_
  intro c _ hc
  have h : d.mana_symbols c = 0 := by
    by_contra h
    exact hc (List.mem_toFinset.mpr (hsupp c h))
  rw [h]
  simp

/-- `SimpleCalculator::calculate` conserves basic-land slots on decks whose
color list is duplicate-free and whose pip map only counts listed colors. -/
theorem simple_calculate_sum (d : Deck) (hnd : d.colors.Nodup)
    (hsupp : ∀ c, d.mana_symbols c ≠ 0 → c ∈ d.colors)
    (hS : d.total_mana_symbols ≠ 0) :
    ∃ mb, SimpleCalculator.calculate d = some mb ∧
      mb.basicsTotal = d.target_lands - d.dual_land_count := by
  have hne : d.colors ≠ [] := by
    obtain ⟨c, -, hc⟩ := Finset.exists_ne_zero_of_sum_ne_zero
      (f := d.mana_symbols) (s := Finset.univ) hS
    exact List.ne_nil_of_mem (hsupp c hc)
  have hS0 : (d.total_mana_symbols : ℚ) ≠ 0 := Nat.cast_ne_zero.mpr hS
  have hmf := sum_mana_symbols_toFinset d hsupp
  obtain ⟨basics, hb1, hb2⟩ := allocate_eq_some d.colors
    (fun c => if c ∈ d.colors then
      some ((d.mana_symbols c : ℚ) / (d.total_mana_symbols : ℚ)) else some 0)
    d.dual_lands d.target_lands
    (fun c => (d.mana_symbols c : ℚ) / (d.total_mana_symbols : ℚ))
    hnd hne
    (fun c hc => if_pos hc)
    (fun c _ => div_nonneg (Nat.cast_nonneg _) (Nat.cast_nonneg _))
    (by rw [← Finset.sum_div, hmf, div_self hS0])
  refine ⟨{ basics := basics
            duals := d.dual_lands
            recommendations := []
            color_percentages := fun c => if c ∈ d.colors then
              some ((d.mana_symbols c : ℚ) / (d.total_mana_symbols : ℚ))
              else some 0 }, ?_, ?_⟩
  · unfold SimpleCalculator.calculate
    rw [if_neg (by push_neg; exact ⟨hS, hne⟩)]
    simp only []
    rw [hb1]
    rfl
  · show (∑ c : Color, basics c) = _
    rw [hb2]
    rfl

/-- `CmcWeightedCalculator::calculate` conserves basic-land slots under the
same well-formedness hypotheses (there the weighted total over the deck's
colors is then provably nonzero, so no NaN percentage arises). -/
theorem cmc_calculate_sum (d : Deck) (hnd : d.colors.Nodup)
    (hsupp : ∀ c, d.mana_symbols c ≠ 0 → c ∈ d.colors)
    (hS : d.total_mana_symbols ≠ 0) :
    ∃ mb, CmcWeightedCalculator.calculate d = some mb ∧
      mb.basicsTotal = d.target_lands - d.dual_land_count := by
  have hne : d.colors ≠ [] := by
    obtain ⟨c, -, hc⟩ := Finset.exists_ne_zero_of_sum_ne_zero
      (f := d.mana_symbols) (s := Finset.univ) hS
    exact List.ne_nil_of_mem (hsupp c hc)
  have hmf := sum_mana_symbols_toFinset d hsupp
  have hgate : ∀ f : Color → ℚ, (∑ c : Color, (if c ∈ d.colors then f c else 0))
      = ∑ c ∈ d.colors.toFinset, f c := by
    intro f
    rw [← Finset.sum_filter]
    congr 1
    ext c
    simp [List.mem_toFinset]
  have hWf : (∑ c : Color, (if c ∈ d.colors then
        ((d.mana_symbols c : ℚ) + (d.pip_intensity c : ℚ) * (1 / 2)) else 0))
      = ∑ c ∈ d.colors.toFinset,
        ((d.mana_symbols c : ℚ) + (d.pip_intensity c : ℚ) * (1 / 2)) :=
    hgate _
  have hSW : (d.total_mana_symbols : ℚ)
      ≤ ∑ c ∈ d.colors.toFinset,
        ((d.mana_symbols c : ℚ) + (d.pip_intensity c : ℚ) * (1 / 2)) := by
    rw [← hmf]
    refine Finset.sum_le_sum ?_
    intro c _
    have : 0 ≤ (d.pip_intensity c : ℚ) * (1 / 2) := by positivity
    linarith
  have hSpos : (0 : ℚ) < (d.total_mana_symbols : ℚ) := by
    exact_mod_cast Nat.pos_of_ne_zero hS
  have hWpos : (0 : ℚ) < ∑ c ∈ d.colors.toFinset,
      ((d.mana_symbols c : ℚ) + (d.pip_intensity c : ℚ) * (1 / 2)) :=
    lt_of_lt_of_le hSpos hSW
  have hW0 : (∑ c : Color, (if c ∈ d.colors then
      ((d.mana_symbols c : ℚ) + (d.pip_intensity c : ℚ) * (1 / 2)) else 0))
      ≠ 0 := by
    rw [hWf]
    exact ne_of_gt hWpos
  obtain ⟨basics, hb1, hb2⟩ := allocate_eq_some d.colors
    (fun c => if c ∈ d.colors then
      (if (∑ c : Color, (if c ∈ d.colors then
          ((d.mana_symbols c : ℚ) + (d.pip_intensity c : ℚ) * (1 / 2)) else 0))
          = 0 then none
        else some (((d.mana_symbols c : ℚ) + (d.pip_intensity c : ℚ) * (1 / 2))
          / (∑ c : Color, (if c ∈ d.colors then
            ((d.mana_symbols c : ℚ) + (d.pip_intensity c : ℚ) * (1 / 2))
            else 0))))
      else some 0)
    d.dual_lands d.target_lands
    (fun c => ((d.mana_symbols c : ℚ) + (d.pip_intensity c : ℚ) * (1 / 2))
      / (∑ c : Color, (if c ∈ d.colors then
        ((d.mana_symbols c : ℚ) + (d.pip_intensity c : ℚ) * (1 / 2)) else 0)))
    hnd hne
    (fun c hc => by simp only [if_pos hc, if_neg hW0])
    (fun c _ => by
      refine div_nonneg (by positivity) ?_
      rw [hWf]
      exact le_of_lt hWpos)
    (by
      rw [← Finset.sum_div, hWf, div_self (ne_of_gt hWpos)])
  refine ⟨{ basics := basics
            duals := d.dual_lands
            recommendations :=
              (d.colors.filter (fun c => 3 ≤ d.pip_intensity c)).map
                (fun c => recMessage c (d.pip_intensity c))
            color_percentages := fun c => if c ∈ d.colors then
              (if (∑ c : Color, (if c ∈ d.colors then
                  ((d.mana_symbols c : ℚ) + (d.pip_intensity c : ℚ) * (1 / 2))
                  else 0)) = 0 then none
                else some (((d.mana_symbols c : ℚ)
                    + (d.pip_intensity c : ℚ) * (1 / 2))
                  / (∑ c : Color, (if c ∈ d.colors then
                    ((d.mana_symbols c : ℚ)
                      + (d.pip_intensity c : ℚ) * (1 / 2)) else 0))))
              else some 0 }, ?_, ?_⟩
  · unfold CmcWeightedCalculator.calculate
    rw [if_neg (by push_neg; exact ⟨hS, hne⟩)]
    simp only []
    rw [hb1]
    rfl
  · show (∑ c : Color, basics c) = _
    rw [hb2]
    rfl

/-- Both calculators return the empty `ManaBase` on the degenerate inputs
(zero total pip count, or no colors). -/
theorem calculate_degenerate (d : Deck)
    (h : d.total_mana_symbols = 0 ∨ d.colors = []) :
    SimpleCalculator.calculate d = some ManaBase.new ∧
      CmcWeightedCalculator.calculate d = some ManaBase.new := by
  constructor
  · unfold SimpleCalculator.calculate
    rw [if_pos h]
  · unfold CmcWeightedCalculator.calculate
    rw [if_pos h]

/-- Claim C1, amended.  For every `Deck` whose color list is duplicate-free,
whose mana-symbol map counts only colors listed in `deck.colors`, with
`target_lands ≥ dual_land_count` and nonzero total pip weight, the `ManaBase`
returned by `calculate` (Simple and CMC-Weighted alike) has basic-land counts
summing exactly to `target_lands - dual_land_count`; when the total pip
weight is 0 or the deck has no colors, the empty `ManaBase` is returned
instead.  (The claim as frozen omitted the first two well-formedness
hypotheses; without them the sum falls short — see the counterexample.) -/
theorem claim_c1_conservation (d : Deck)
    (hnd : d.colors.Nodup)
    (hsupp : ∀ c, d.mana_symbols c ≠ 0 → c ∈ d.colors)
    (hS : d.total_mana_symbols ≠ 0)
    (hduals : d.dual_land_count ≤ d.target_lands) :
    (∃ mb, SimpleCalculator.calculate d = some mb ∧
      mb.basicsTotal = d.target_lands - d.dual_land_count) ∧
    (∃ mb, CmcWeightedCalculator.calculate d = some mb ∧
      mb.basicsTotal = d.target_lands - d.dual_land_count) ∧
    (∀ d' : Deck, d'.total_mana_symbols = 0 ∨ d'.colors = [] →
      SimpleCalculator.calculate d' = some ManaBase.new ∧
      CmcWeightedCalculator.calculate d' = some ManaBase.new) :=
  ⟨simple_calculate_sum d hnd hsupp hS,
   cmc_calculate_sum d hnd hsupp hS,
   fun d' h => calculate_degenerate d' h⟩

/-- Claim C1, counterexample to the claim as frozen: both decks satisfy the
claim's hypotheses (`target_lands ≥ dual_land_count`, nonzero total pip
weight), yet `SimpleCalculator::calculate` returns basics summing to 4 and 2
where the claim demands `target_lands - dual_land_count` = 20 and 3. -/
theorem claim_c1_counterexample :
    (c1DeckA.dual_land_count ≤ c1DeckA.target_lands ∧
      c1DeckA.total_mana_symbols ≠ 0 ∧
      (SimpleCalculator.calculate c1DeckA).map ManaBase.basicsTotal
        = some 4 ∧
      c1DeckA.target_lands - c1DeckA.dual_land_count = 20) ∧
    (c1DeckB.dual_land_count ≤ c1DeckB.target_lands ∧
      c1DeckB.total_mana_symbols ≠ 0 ∧
      (SimpleCalculator.calculate c1DeckB).map ManaBase.basicsTotal
        = some 2 ∧
      c1DeckB.target_lands - c1DeckB.dual_land_count = 3) := by
  decide

/-- Claim C1, witness: the amended theorem applied to the repository's own
two-color/four-duals test deck (24 target lands, 4 duals, so 20 basics). -/
theorem claim_c1_witness :
    (∃ mb, SimpleCalculator.calculate c1DeckW = some mb ∧
      mb.basicsTotal = 20) ∧
    (∃ mb, CmcWeightedCalculator.calculate c1DeckW = some mb ∧
      mb.basicsTotal = 20) := by
  have h := claim_c1_conservation c1DeckW (by decide)
    (by decide) (by decide) (by decide)
  refine ⟨?_, ?_⟩
  · obtain ⟨mb, h1, h2⟩ := h.1
    exact ⟨mb, h1, by rw [h2]; decide⟩
  · obtain ⟨mb, h1, h2⟩ := h.2.1
    exact ⟨mb, h1, by rw [h2]; decide⟩

/-! ## Claim C2: recommendations of the CMC-weighted calculator -/

theorem isPrefixOf_append_self : ∀ p s : List Char,
    p.isPrefixOf (p ++ s) = true
  | [], s => by simp [List.isPrefixOf]
  | c :: t, s => by
      simp [List.isPrefixOf, isPrefixOf_append_self t s]

theorem containsSub_here : ∀ (p suf : List Char),
    containsSub p (p ++ suf) = true := by
  intro p suf
  cases hp : p ++ suf with
  | nil =>
      have : p = [] := by
        cases p with
        | nil => rfl
        | cons c t => simp at hp
      rw [containsSub, this]
      rfl
  | cons c t =>
      rw [containsSub, ← hp, isPrefixOf_append_self]
      rfl

theorem containsSub_append_right : ∀ (x p s : List Char),
    containsSub p s = true → containsSub p (x ++ s) = true := by
  intro x
  induction x with
  | nil => intro p s h; exact h
  | cons c t ih =>
      intro p s h
      rw [List.cons_append, containsSub, ih p s h]
      simp

/-- Claim C2, amended.  Whenever the CMC-weighted calculator returns (and
the deck is not degenerate), its recommendation list contains exactly one
message per deck color with pip intensity at least 3, in deck-color order;
each message contains the color's name and the intensity count.  There is no
additional, stronger message for intensities of 5 or more (that wording
belongs to the separate pip-intensity analyzer, not to `calculate`). -/
theorem claim_c2_recommendations :
    (∀ (d : Deck) (mb : ManaBase),
      CmcWeightedCalculator.calculate d = some mb →
      d.total_mana_symbols ≠ 0 → d.colors ≠ [] →
      mb.recommendations
        = (d.colors.filter (fun c => 3 ≤ d.pip_intensity c)).map
            (fun c => recMessage c (d.pip_intensity c))) ∧
    (∀ (c : Color) (i : ℕ),
      containsSub c.name.data (recMessage c i).data = true ∧
      containsSub (toString i).data (recMessage c i).data = true) := by
  constructor
  · intro d mb h hS hne
    unfold CmcWeightedCalculator.calculate at h
    rw [if_neg (by push_neg; exact ⟨hS, hne⟩)] at h
    simp only [] at h
    cases hall : allocate d.colors
        (fun c => if c ∈ d.colors then
          (if (∑ c : Color, (if c ∈ d.colors then
              ((d.mana_symbols c : ℚ) + (d.pip_intensity c : ℚ) * (1 / 2))
              else 0)) = 0 then none
            else some (((d.mana_symbols c : ℚ)
                + (d.pip_intensity c : ℚ) * (1 / 2))
              / (∑ c : Color, (if c ∈ d.colors then
                ((d.mana_symbols c : ℚ) + (d.pip_intensity c : ℚ) * (1 / 2))
                else 0))))
          else some 0)
        d.dual_lands d.target_lands with
    | none =>
        rw [hall] at h
        cases h
    | some basics =>
        rw [hall] at h
        simp only [Option.map_some'] at h
        rw [Option.some_inj] at h
        rw [← h]
  · intro c i
    constructor
    · have h : (recMessage c i).data
          = c.name.data ++ ((" has high pip density (") ++ (toString i) ++
              (" cards with \x7b") ++ c.symbol ++ ("\x7d\x7b") ++ c.symbol ++
              ("\x7d or more). Consider additional ") ++ (lowerStr c.name) ++
              (" sources or mana rocks.")).data := by
        simp [recMessage, String.data_append, List.append_assoc]
      rw [h]
      exact containsSub_here _ _
    · have h : (recMessage c i).data
          = (c.name ++ (" has high pip density (")).data ++
            ((toString i).data ++
              ((" cards with \x7b") ++ c.symbol ++ ("\x7d\x7b") ++ c.symbol ++
                ("\x7d or more). Consider additional ") ++ (lowerStr c.name) ++
                (" sources or mana rocks.")).data) := by
        simp [recMessage, String.data_append, List.append_assoc]
      rw [h]
      exact containsSub_append_right _ _ _ (containsSub_here _ _)

/-- Claim C2, counterexample to the claim as frozen: a color with pip
intensity 5 satisfies both the ≥3 and the ≥5 condition, so the claim
promises two (distinct) recommendation strings for it; the code appends
exactly one. -/
theorem claim_c2_counterexample :
    (CmcWeightedCalculator.calculate c2Deck).map
      (fun mb => mb.recommendations.length) = some 1 := by
  decide

/-- Claim C2, witness: the amended theorem applied to `c2Deck` (one color of
intensity 5, one recommendation, carrying the name and the count). -/
theorem claim_c2_witness :
    ∃ mb, CmcWeightedCalculator.calculate c2Deck = some mb ∧
      mb.recommendations = [recMessage Color.blue 5] ∧
      containsSub (Color.blue.name.data) (recMessage Color.blue 5).data
        = true ∧
      containsSub ((toString 5).data) (recMessage Color.blue 5).data
        = true := by
  have hs : (CmcWeightedCalculator.calculate c2Deck).isSome = true := by
    decide
  cases h : CmcWeightedCalculator.calculate c2Deck with
  | none => rw [h] at hs; cases hs
  | some mb =>
      refine ⟨mb, rfl, ?_, ?_, ?_⟩
      · rw [claim_c2_recommendations.1 c2Deck mb h (by decide) (by decide)]
        decide
      · exact (claim_c2_recommendations.2 Color.blue 5).1
      · exact (claim_c2_recommendations.2 Color.blue 5).2

/-! ## Claim C3: totality of the calculators -/

/-- The allocation pipeline never panics when no percentage is NaN. -/
theorem allocate_isSome (colors : List Color) (percF : Color → Option ℚ)
    (duals : List DualLand) (target : ℕ)
    (h : ∀ c ∈ colors, percF c ≠ none) :
    (allocate colors percF duals target).isSome = true := by
  have hbc : ∀ c, basicCountsF colors percF duals target c ≠ none := by
    intro c
    by_cases hBR : (slotBudget duals target : ℚ)
        ≤ totalRemaining colors percF duals target
    · simp [basicCountsF, hBR]
    · by_cases hc : c ∈ colors
      · cases hp : percF c with
        | none => exact absurd hp (h c hc)
        | some p => simp [basicCountsF, hBR, hc, hp]
      · simp [basicCountsF, hBR, hc]
  have hany : ((fracPartsOf colors percF duals target).any
      (fun p => p.2.isNone)) = false := by
    rw [List.any_eq_false]
    intro x hx
    unfold fracPartsOf at hx
    obtain ⟨c, -, rfl⟩ := List.mem_map.mp hx
    cases hb : basicCountsF colors percF duals target c with
    | none => exact absurd hb (hbc c)
    | some q => simp [hb]
  unfold allocate
  simp only []
  rw [if_neg (by rintro ⟨-, h2⟩; rw [hany] at h2; cases h2)]
  rfl

/-- `SimpleCalculator::calculate` is total: its percentages are quotients by
the (guarded-nonzero) total pip count, never NaN, so the fractional-part
sort never panics. -/
theorem simple_calculate_isSome (d : Deck) :
    (SimpleCalculator.calculate d).isSome = true := by
  unfold SimpleCalculator.calculate
  split
  · rfl
  · simp only []
    cases hall : allocate d.colors
        (fun c => if c ∈ d.colors then
          some ((d.mana_symbols c : ℚ) / (d.total_mana_symbols : ℚ))
          else some 0)
        d.dual_lands d.target_lands with
    | none =>
        have hs := allocate_isSome d.colors
          (fun c => if c ∈ d.colors then
            some ((d.mana_symbols c : ℚ) / (d.total_mana_symbols : ℚ))
            else some 0)
          d.dual_lands d.target_lands
          (fun c hc => by simp [if_pos hc])
        rw [hall] at hs
        cases hs
    | some basics =>
        rfl

/-- Claim C3 (code bug).  The claim says `calculate` is a pure, deterministic,
total function for both calculators.  The Simple calculator is total (and
both are deterministic by construction — the embedding is a function of the
deck value alone).  But `CmcWeightedCalculator::calculate` panics on
`c3Deck`: all pips sit on a color outside `deck.colors`, so the weighted
total is 0, every percentage is `0.0/0.0 = NaN`, and the fractional-part
sort's `partial_cmp(..).unwrap()` panics (modelled as `none`). -/
theorem claim_c3_totality :
    CmcWeightedCalculator.calculate c3Deck = none ∧
    c3Deck.total_mana_symbols ≠ 0 ∧
    (∀ d : Deck, (SimpleCalculator.calculate d).isSome = true) :=
  ⟨by decide, by decide, simple_calculate_isSome⟩

/-! ## Claim C4: the theme significance filter -/

/-- Claim C4, amended.  For every decklist and configured minimum `m`,
every theme analysis in `detected_themes` has a member-card list of length
at least `m` — but the member list of a tribal theme holds one name per
matching deck entry, so with duplicate decklist entries the number of
DISTINCT member cards can be smaller than `m` (see the counterexample). -/
theorem claim_c4_significance (self : RuleBasedDetector) (deck : DeckList) :
    ∀ a ∈ (self.analyze deck).detected_themes,
      self.min_theme_cards ≤ a.card_count := by
  intro a ha
  have ha2 : a ∈ self.aggregate_themes
      (RuleBasedDetector.build_card_profiles deck) deck := ha
  unfold RuleBasedDetector.aggregate_themes at ha2
  simp only [] at ha2
  rw [List.mem_insertionSort] at ha2
  obtain ⟨tc, htc, rfl⟩ := List.mem_map.mp ha2
  have hf := (List.mem_filter.mp htc).2
  simpa using hf

/-- Claim C4, counterexample to the claim as frozen: under the default
minimum of 5, the Elf tribal theme of `c4Deck` appears in
`detected_themes` although only 4 distinct cards match it (its member list
has length 5 because one card occupies two deck entries). -/
theorem claim_c4_counterexample :
    RuleBasedDetector.new.min_theme_cards = 5 ∧
    ((RuleBasedDetector.new.analyze c4Deck).detected_themes.map
      (fun a => (a.theme, a.card_count,
        ((a.enablers ++ a.payoffs ++ a.support).dedup).length)))
      = [(Theme.tribal ("Elf"), 5, 4)] := by
  decide

/-- Claim C4, witness: the amended theorem applied to `c4Deck`'s first
detected theme. -/
theorem claim_c4_witness :
    RuleBasedDetector.new.min_theme_cards ≤
      ((RuleBasedDetector.new.analyze c4Deck).detected_themes.headI).card_count :=
  claim_c4_significance RuleBasedDetector.new c4Deck _ (by decide)

/-! ## Claim C5: tribal thresholds -/

/-- Claim C5.  `detect_tribal_themes` emits a creature type iff its count
is at least 8 or its percentage (count over total creatures, 0 when there
are none) is at least 3/10; the output is sorted by count descending; a
type on 8 of 50 creatures is included (by the absolute threshold alone,
8/50 being below 3/10), and a type on 5 of 40 creatures is excluded. -/
theorem claim_c5_tribal :
    (∀ (counts : List (String × ℕ)) (total : ℕ) (t : String) (c : ℕ)
        (p : ℚ),
      ((Theme.tribal t, c, p) ∈ detect_tribal_themes counts total) ↔
        ((t, c) ∈ counts ∧
          p = (if 0 < total then (c : ℚ) / (total : ℚ) else 0) ∧
          (8 ≤ c ∨ (3 : ℚ)/10 ≤
            (if 0 < total then (c : ℚ) / (total : ℚ) else 0)))) ∧
    (∀ (counts : List (String × ℕ)) (total : ℕ),
      List.Sorted (fun a b : Theme × ℕ × ℚ => b.2.1 ≤ a.2.1)
        (detect_tribal_themes counts total)) ∧
    (detect_tribal_themes [(("Elf"), 8)] 50
      = [(Theme.tribal ("Elf"), 8, 8/50)]) ∧
    ((8 : ℚ)/50 < 3/10) ∧
    (detect_tribal_themes [(("Wolf"), 5)] 40 = []) := by
  refine ⟨?_, ?_, by decide, by decide, by decide⟩
  · intro counts total t c p
    unfold detect_tribal_themes
    simp only []
    rw [List.mem_insertionSort]
    rw [List.mem_filterMap]
    constructor
    · rintro ⟨⟨t', c'⟩, hmem, hfc⟩
      by_cases hpred : 8 ≤ c' ∨ (3 : ℚ)/10 ≤
          (if 0 < total then (c' : ℚ) / (total : ℚ) else 0)
      · rw [if_pos hpred] at hfc
        simp only [Option.some.injEq, Prod.mk.injEq, Theme.tribal.injEq]
          at hfc
        obtain ⟨ht, hc, hp2⟩ := hfc
        subst ht
        subst hc
        exact ⟨hmem, hp2.symm, hpred⟩
      · rw [if_neg hpred] at hfc
        cases hfc
    · rintro ⟨hmem, hp, hpred⟩
      refine ⟨(t, c), hmem, ?_⟩
      rw [if_pos hpred, hp]
  · intro counts total
    unfold detect_tribal_themes
    simp only []
    haveI h1 : IsTotal (Theme × ℕ × ℚ) (fun a b => b.2.1 ≤ a.2.1) :=
      ⟨fun a b => Nat.le_total b.2.1 a.2.1⟩
    haveI h2 : IsTrans (Theme × ℕ × ℚ) (fun a b => b.2.1 ≤ a.2.1) :=
      ⟨fun _ _ _ hab hbc => le_trans hbc hab⟩
    exact List.sorted_insertionSort _ _

/-! ## Claim C6: edge deduplication -/

/-- The normalized pair of an edge's endpoints. -/
def edgeNormPair (e : SynergyEdge) : String × String :=
  normPair e.card_a e.card_b

/-- The seen-pair set of the edge-building loop is, at every point, exactly
the set of normalized pairs of the edges built so far, and those are
pairwise distinct. -/
def EdgeInv (st : List SynergyEdge × List (String × String)) : Prop :=
  (st.1.map edgeNormPair).Nodup ∧
    ∀ p, p ∈ st.2 ↔ ∃ e ∈ st.1, edgeNormPair e = p

theorem edgeNormPair_edgeFor (t : ThemeAnalysis) (a b : String) :
    edgeNormPair (edgeFor t a b) = normPair a b := rfl

theorem edgeStep_inv (t : ThemeAnalysis)
    (st : List SynergyEdge × List (String × String)) (p : String × String)
    (h : EdgeInv st) : EdgeInv (edgeStep t st p) := by
  unfold edgeStep
  simp only []
  split
  · exact h
  · next hnot =>
      constructor
      · rw [List.map_append]
        rw [List.nodup_append]
        refine ⟨h.1, by simp, ?_⟩
        intro q hq hq2
        simp only [List.map_cons, List.map_nil, List.mem_singleton] at hq2
        rw [edgeNormPair_edgeFor] at hq2
        subst hq2
        obtain ⟨e, he, hep⟩ := List.mem_map.mp hq
        exact hnot ((h.2 _).mpr ⟨e, he, hep⟩)
      · intro q
        constructor
        · intro hq
          rcases List.mem_append.mp hq with h1 | h1
          · obtain ⟨e, he, hep⟩ := (h.2 q).mp h1
            exact ⟨e, List.mem_append_left _ he, hep⟩
          · rw [List.mem_singleton] at h1
            exact ⟨edgeFor t p.1 p.2,
              List.mem_append_right _ (List.mem_singleton.mpr rfl),
              by rw [edgeNormPair_edgeFor, h1]⟩
        · rintro ⟨e, he, hep⟩
          rcases List.mem_append.mp he with h1 | h1
          · exact List.mem_append_left _ ((h.2 q).mpr ⟨e, h1, hep⟩)
          · rw [List.mem_singleton] at h1
            subst h1
            rw [edgeNormPair_edgeFor] at hep
            exact List.mem_append_right _ (List.mem_singleton.mpr hep.symm)

theorem foldl_edgeStep_inv (t : ThemeAnalysis) :
    ∀ (l : List (String × String))
      (st : List SynergyEdge × List (String × String)),
      EdgeInv st → EdgeInv (l.foldl (edgeStep t) st)
  | [], st, h => h
  | p :: rest, st, h =>
      foldl_edgeStep_inv t rest (edgeStep t st p) (edgeStep_inv t st p h)

theorem foldl_themes_inv :
    ∀ (themes : List ThemeAnalysis)
      (st : List SynergyEdge × List (String × String)),
      EdgeInv st →
      EdgeInv (themes.foldl (fun st t =>
        (listPairs t.all_cards).foldl (edgeStep t) st) st)
  | [], st, h => h
  | t :: rest, st, h =>
      foldl_themes_inv rest _ (foldl_edgeStep_inv t (listPairs t.all_cards)
        st h)

theorem edgeStep_seen_mono (t : ThemeAnalysis)
    (st : List SynergyEdge × List (String × String)) (p q : String × String)
    (h : q ∈ st.2) : q ∈ (edgeStep t st p).2 := by
  unfold edgeStep
  simp only []
  split
  · exact h
  · exact List.mem_append_left _ h

theorem foldl_edgeStep_seen_mono (t : ThemeAnalysis) :
    ∀ (l : List (String × String))
      (st : List SynergyEdge × List (String × String))
      (q : String × String), q ∈ st.2 → q ∈ (l.foldl (edgeStep t) st).2
  | [], _, _, h => h
  | p :: rest, st, q, h =>
      foldl_edgeStep_seen_mono t rest (edgeStep t st p) q
        (edgeStep_seen_mono t st p q h)

theorem edgeStep_seen_self (t : ThemeAnalysis)
    (st : List SynergyEdge × List (String × String)) (p : String × String) :
    normPair p.1 p.2 ∈ (edgeStep t st p).2 := by
  unfold edgeStep
  simp only []
  split
  · next hmem => exact hmem
  · exact List.mem_append_right _ (List.mem_singleton.mpr rfl)

theorem foldl_edgeStep_seen_all (t : ThemeAnalysis) :
    ∀ (l : List (String × String))
      (st : List SynergyEdge × List (String × String))
      (p : String × String), p ∈ l →
      normPair p.1 p.2 ∈ (l.foldl (edgeStep t) st).2 := by
  intro l
  induction l with
  | nil => intro st p h; cases h
  | cons hd rest ih =>
      intro st p h
      rcases List.mem_cons.mp h with h1 | h1
      · subst h1
        exact foldl_edgeStep_seen_mono t rest _ _ (edgeStep_seen_self t st p)
      · exact ih _ p h1

theorem foldl_themes_seen_mono :
    ∀ (themes : List ThemeAnalysis)
      (st : List SynergyEdge × List (String × String))
      (q : String × String), q ∈ st.2 →
      q ∈ (themes.foldl (fun st t =>
        (listPairs t.all_cards).foldl (edgeStep t) st) st).2
  | [], _, _, h => h
  | t :: rest, st, q, h =>
      foldl_themes_seen_mono rest _ q
        (foldl_edgeStep_seen_mono t (listPairs t.all_cards) st q h)

theorem listPairs_cover {α : Type} (a b : α) :
    ∀ (l : List α), a ∈ l → b ∈ l → a ≠ b →
      (a, b) ∈ listPairs l ∨ (b, a) ∈ listPairs l := by
  intro l
  induction l with
  | nil => intro ha _ _; cases ha
  | cons x rest ih =>
      intro ha hb hne
      rcases List.mem_cons.mp ha with h1 | h1
      · subst h1
        have hbr : b ∈ rest := by
          rcases List.mem_cons.mp hb with h2 | h2
          · exact absurd h2.symm hne
          · exact h2
        left
        unfold listPairs
        exact List.mem_append_left _ (List.mem_map.mpr ⟨b, hbr, rfl⟩)
      · rcases List.mem_cons.mp hb with h2 | h2
        · subst h2
          right
          unfold listPairs
          exact List.mem_append_left _ (List.mem_map.mpr ⟨a, h1, rfl⟩)
        · rcases ih h1 h2 hne with h3 | h3
          · left
            unfold listPairs
            exact List.mem_append_right _ h3
          · right
            unfold listPairs
            exact List.mem_append_right _ h3

theorem normPair_comm (a b : String) : normPair a b = normPair b a := by
  unfold normPair
  rcases lt_trichotomy a b with h | h | h
  · rw [if_pos h, if_neg (by exact not_lt.mpr (le_of_lt h))]
  · subst h
    simp
  · rw [if_neg (by exact not_lt.mpr (le_of_lt h)), if_pos h]

theorem seen_of_co_occurrence (a b : String) (hne : a ≠ b) :
    ∀ (themes : List ThemeAnalysis)
      (st : List SynergyEdge × List (String × String)),
      (∃ t ∈ themes, a ∈ t.all_cards ∧ b ∈ t.all_cards) →
      normPair a b ∈ (themes.foldl (fun st t =>
        (listPairs t.all_cards).foldl (edgeStep t) st) st).2 := by
  intro themes
  induction themes with
  | nil =>
      rintro st ⟨t, ht, -⟩
      cases ht
  | cons hd rest ih =>
      rintro st ⟨t, ht, ha, hb⟩
      rcases List.mem_cons.mp ht with h1 | h1
      · subst h1
        rcases listPairs_cover a b t.all_cards ha hb hne with h2 | h2
        · exact foldl_themes_seen_mono rest _ _
            (foldl_edgeStep_seen_all t _ st (a, b) h2)
        · rw [normPair_comm]
          exact foldl_themes_seen_mono rest _ _
            (foldl_edgeStep_seen_all t _ st (b, a) h2)
      · exact ih _ ⟨t, h1, ha, hb⟩

theorem countP_eq_one_of_nodup_mem {α : Type} [DecidableEq α] :
    ∀ (l : List α) (x : α), l.Nodup → x ∈ l →
      l.countP (fun q => decide (q = x)) = 1 := by
  intro l
  induction l with
  | nil => intro x _ hx; cases hx
  | cons a rest ih =>
      intro x hnd hx
      rcases List.mem_cons.mp hx with h1 | h1
      · rw [List.countP_cons]
        have h0 : rest.countP (fun q => decide (q = x)) = 0 := by
          rw [List.countP_eq_zero]
          intro q hq
          simp only [decide_eq_true_eq]
          intro hqx
          rw [hqx, h1] at hq
          exact (List.nodup_cons.mp hnd).1 hq
        rw [h0]
        simp [h1]
      · rw [List.countP_cons]
        rw [ih x (List.nodup_cons.mp hnd).2 h1]
        have : ¬(a = x) := by
          intro hax
          subst hax
          exact (List.nodup_cons.mp hnd).1 h1
        simp [this]

/-- Claim C6.  In the edge list built by the synergy detector, every
unordered (normalized) pair of card names appears at most once across the
whole matrix; and a pair of distinct cards that co-occurs in at least one
surviving theme produces exactly one `SynergyEdge`, even if they co-occur
in several themes. -/
theorem claim_c6_edge_dedup :
    (∀ (profiles : List (String × CardSynergyProfile))
        (themes : List ThemeAnalysis),
      ((RuleBasedDetector.build_edges profiles themes).map
        edgeNormPair).Nodup) ∧
    (∀ (profiles : List (String × CardSynergyProfile))
        (themes : List ThemeAnalysis) (a b : String), a ≠ b →
      (∃ t ∈ themes, a ∈ t.all_cards ∧ b ∈ t.all_cards) →
      ((RuleBasedDetector.build_edges profiles themes).countP
        (fun e => decide (edgeNormPair e = normPair a b))) = 1) := by
  have hinv : ∀ themes : List ThemeAnalysis,
      EdgeInv (themes.foldl (fun st t =>
        (listPairs t.all_cards).foldl (edgeStep t) st) ([], [])) := by
    intro themes
    exact foldl_themes_inv themes ([], [])
      ⟨List.nodup_nil, by
        intro p
        constructor
        · intro h; cases h
        · rintro ⟨e, he, -⟩; cases he⟩
  constructor
  · intro profiles themes
    exact (hinv themes).1
  · intro profiles themes a b hne hco
    have hseen := seen_of_co_occurrence a b hne themes ([], []) hco
    obtain ⟨e, he, hep⟩ := ((hinv themes).2 _).mp hseen
    have h1 : ((RuleBasedDetector.build_edges profiles themes).map
        edgeNormPair).countP (fun q => decide (q = normPair a b)) = 1 :=
      countP_eq_one_of_nodup_mem _ _ (hinv themes).1
        (List.mem_map.mpr ⟨e, he, hep⟩)
    rw [List.countP_map] at h1
    exact h1

/-- Claim C6, witness: two surviving themes share the cards `Card A` and
`Card B`; the built edge list contains exactly one edge for that pair. -/
theorem claim_c6_witness :
    ((RuleBasedDetector.build_edges [] c6Themes).countP
      (fun e => decide (edgeNormPair e = normPair ("Card A") ("Card B"))))
      = 1 :=
  claim_c6_edge_dedup.2 [] c6Themes ("Card A") ("Card B") (by decide)
    ⟨⟨Theme.tokens, 2, 0, [], [], [("Card A"), ("Card B")]⟩,
      by decide, by decide, by decide⟩

/-! ## Claim C7: orphan cards partition the profile names -/

/-- A card name sits on at least one edge. -/
def incidentTo (edges : List SynergyEdge) (n : String) : Prop :=
  ∃ e ∈ edges, e.card_a = n ∨ e.card_b = n

instance (edges : List SynergyEdge) (n : String) :
    Decidable (incidentTo edges n) := by
  unfold incidentTo
  infer_instance

/-- Claim C7.  For all inputs of `calculate_stats`, a profile name is
listed in `orphan_cards` if and only if it is not an endpoint of any edge;
and everything in `orphan_cards` is a profile name.  Hence every name in
`card_profiles` belongs to exactly one of {orphan cards} and {cards
incident to at least one edge}, and no name is in both. -/
theorem claim_c7_orphans (profiles : List (String × CardSynergyProfile))
    (edges : List SynergyEdge) (deck : DeckList) :
    (∀ n, n ∈ profiles.map Prod.fst →
      (n ∈ (RuleBasedDetector.calculate_stats profiles edges deck).orphan_cards
        ↔ ¬ incidentTo edges n)) ∧
    (∀ n,
      n ∈ (RuleBasedDetector.calculate_stats profiles edges deck).orphan_cards
        → n ∈ profiles.map Prod.fst) := by
  have horph :
      (RuleBasedDetector.calculate_stats profiles edges deck).orphan_cards
      = (profiles.map Prod.fst).filter (fun n =>
          !((edges.flatMap (fun e => [e.card_a, e.card_b])).contains n)) :=
    rfl
  have hmem : ∀ n,
      (edges.flatMap (fun e => [e.card_a, e.card_b])).contains n = true
        ↔ incidentTo edges n := by
    intro n
    rw [List.elem_iff]
    unfold incidentTo
    rw [List.mem_flatMap]
    constructor
    · rintro ⟨e, he, hn⟩
      rcases List.mem_cons.mp hn with h1 | h1
      · exact ⟨e, he, Or.inl h1.symm⟩
      · rw [List.mem_singleton] at h1
        exact ⟨e, he, Or.inr h1.symm⟩
    · rintro ⟨e, he, h1 | h1⟩
      · exact ⟨e, he, by rw [h1]; exact List.mem_cons_self _ _⟩
      · exact ⟨e, he, by rw [h1]; simp⟩
  constructor
  · intro n hn
    rw [horph, List.mem_filter]
    constructor
    · rintro ⟨-, hp⟩
      rw [Bool.not_eq_true', ← Bool.not_eq_true] at hp
      rw [← hmem n]
      exact hp
    · intro hni
      refine ⟨hn, ?_⟩
      rw [Bool.not_eq_true', ← Bool.not_eq_true]
      rw [hmem n]
      exact hni
  · intro n hn
    rw [horph] at hn
    exact (List.mem_filter.mp hn).1

/-- Claim C7, witness: on the concrete three-profile, one-edge input,
`Card C` is an orphan (it sits on no edge) and `Card A` is not (it sits on
the edge). -/
theorem claim_c7_witness :
    ("Card C") ∈ (RuleBasedDetector.calculate_stats c7Profiles c7Edges
      c7Deck).orphan_cards ∧
    ("Card A") ∉ (RuleBasedDetector.calculate_stats c7Profiles c7Edges
      c7Deck).orphan_cards := by
  constructor
  · exact ((claim_c7_orphans c7Profiles c7Edges c7Deck).1 ("Card C")
      (by decide)).mpr (by decide)
  · intro h
    exact absurd (((claim_c7_orphans c7Profiles c7Edges c7Deck).1 ("Card A")
      (by decide)).mp h) (by decide)

/-! ## Claim C8: mana-cost pip parsing -/

theorem addB_zero_right (bd : ColorPipBreakdown) :
    bd.addB ColorPipBreakdown.zero = bd := by
  cases bd
  simp [ColorPipBreakdown.addB, ColorPipBreakdown.zero]

theorem addPip_addB (x y : ColorPipBreakdown) (s : List Char) (a : ℚ) :
    addPipForSymbol (x.addB y) s a = x.addB (addPipForSymbol y s a) := by
  unfold addPipForSymbol
  simp only []
  split_ifs <;> cases x <;> cases y <;>
    simp [ColorPipBreakdown.addB, add_assoc]

theorem foldl_addPip_shift (amt : ℚ) :
    ∀ (parts : List (List Char)) (x y : ColorPipBreakdown),
      parts.foldl (fun bd side => addPipForSymbol bd side amt) (x.addB y)
        = x.addB
          (parts.foldl (fun bd side => addPipForSymbol bd side amt) y)
  | [], _, _ => rfl
  | p :: rest, x, y => by
      show (rest.foldl _ (addPipForSymbol (x.addB y) p amt)) = _
      rw [addPip_addB]
      exact foldl_addPip_shift amt rest x (addPipForSymbol y p amt)

/-- The accumulation that `count_color_pips` performs for one scanned
symbol equals adding the claim's per-token contribution. -/
theorem addSymbolPips_eq (bd : ColorPipBreakdown) (t : List Char) :
    addSymbolPips bd t = bd.addB (claimTokenPips t) := by
  unfold addSymbolPips claimTokenPips
  split
  · conv_lhs => rw [← addB_zero_right bd]
    exact foldl_addPip_shift (1/2) (splitSlash [] t) bd ColorPipBreakdown.zero
  · conv_lhs => rw [← addB_zero_right bd]
    exact addPip_addB bd ColorPipBreakdown.zero t 1

theorem foldl_addSymbolPips (toks : List (List Char)) :
    toks.foldl addSymbolPips ColorPipBreakdown.zero
      = toks.foldl (fun bd t => bd.addB (claimTokenPips t))
          ColorPipBreakdown.zero := by
  have h : addSymbolPips = fun bd t => bd.addB (claimTokenPips t) :=
    funext fun bd => funext fun t => addSymbolPips_eq bd t
  rw [h]

theorem collectSymbols_append (rest : List Char) :
    ∀ (t acc : List Char), t.contains '}' = false →
      collectSymbols (t ++ '}' :: rest) (some acc)
        = (acc.reverse ++ t) :: collectSymbols rest none := by
  intro t
  induction t with
  | nil =>
      intro acc _
      simp [collectSymbols]
  | cons c t' ih =>
      intro acc h
      have hc : ¬ c = '}' := by
        intro hc
        subst hc
        simp [List.contains_cons] at h
      have h' : t'.contains '}' = false := by
        simp only [List.contains_cons, Bool.or_eq_false_iff] at h
        exact h.2
      show collectSymbols (c :: (t' ++ '}' :: rest)) (some acc) = _
      rw [show collectSymbols (c :: (t' ++ '}' :: rest)) (some acc)
          = if c = '}' then acc.reverse :: collectSymbols (t' ++ '}' :: rest) none
            else collectSymbols (t' ++ '}' :: rest) (some (c :: acc)) from rfl]
      rw [if_neg hc]
      rw [ih (c :: acc) h']
      simp

theorem collectSymbols_render :
    ∀ (toks : List (List Char)), (∀ t ∈ toks, t.contains '}' = false) →
      collectSymbols (renderTokens toks) none = toks := by
  intro toks
  induction toks with
  | nil => intro _; rfl
  | cons t rest ih =>
      intro h
      show collectSymbols ('{' :: (t ++ '}' :: renderTokens rest)) none = _
      rw [show collectSymbols ('{' :: (t ++ '}' :: renderTokens rest)) none
          = if ('{' : Char) = '{'
            then collectSymbols (t ++ '}' :: renderTokens rest) (some [])
            else collectSymbols (t ++ '}' :: renderTokens rest) none
          from rfl]
      rw [if_pos rfl]
      rw [collectSymbols_append (renderTokens rest) t []
        (h t (List.mem_cons_self _ _))]
      rw [ih (fun x hx => h x (List.mem_cons_of_mem _ hx))]
      simp

/-- Claim C8.  `count_color_pips` scans the `{...}` tokens of the mana-cost
string: it equals the quantity-scaled sum of the claim's per-token
contributions (0.5 to each named color side of a `'/'` token, 1.0 for a
plain color-letter token, nothing otherwise); in particular,
`"{1}{W}{W}"` at quantity 2 contributes white = 4.0, and `"{W/U}"` at
quantity 1 contributes white = 0.5 and blue = 0.5. -/
theorem claim_c8_pips :
    (∀ (toks : List (List Char)) (q : ℕ),
      (∀ t ∈ toks, t.contains '}' = false) →
      count_color_pips ⟨renderTokens toks⟩ q
        = scaleBd q (toks.foldl (fun bd t => bd.addB (claimTokenPips t))
            ColorPipBreakdown.zero)) ∧
    count_color_pips ("{1}{W}{W}") 2 = ⟨4, 0, 0, 0, 0, 0⟩ ∧
    count_color_pips ("{W/U}") 1 = ⟨1/2, 1/2, 0, 0, 0, 0⟩ := by
  refine ⟨?_, by decide, by decide⟩
  intro toks q h
  unfold count_color_pips
  simp only []
  rw [collectSymbols_render toks h, foldl_addSymbolPips]
  rfl

/-- Claim C8, witness: the general theorem applied to the tokens of
`"{1}{W}{W}"` at quantity 2. -/
theorem claim_c8_witness :
    count_color_pips ⟨renderTokens [[('1' : Char)], [('W' : Char)],
        [('W' : Char)]]⟩ 2
      = scaleBd 2 ([[('1' : Char)], [('W' : Char)], [('W' : Char)]].foldl
          (fun bd t => bd.addB (claimTokenPips t)) ColorPipBreakdown.zero) :=
  claim_c8_pips.1 [[('1' : Char)], [('W' : Char)], [('W' : Char)]] 2
    (by decide)

/-! ## Claim C9: unhydrated entries are skipped -/

/-- The mainboard of the hydrated sub-decklist is the hydrated part of the
mainboard. -/
theorem mainboard_hydratedOnly (d : DeckList) :
    d.hydratedOnly.mainboard = d.mainboard.filter (fun e => e.card.isSome) := by
  unfold DeckList.hydratedOnly DeckList.mainboard
  simp only []
  rw [List.filter_filter, List.filter_filter]
  congr 1
  funext e
  rw [Bool.and_comm]

/-- A left fold whose step ignores entries with `card = none` is unchanged
by restricting to the hydrated entries. -/
theorem foldl_skip_none {β : Type} (f : β → DeckEntry → β)
    (hf : ∀ (acc : β) (e : DeckEntry), e.card = none → f acc e = acc) :
    ∀ (l : List DeckEntry) (init : β),
      (l.filter (fun e => e.card.isSome)).foldl f init = l.foldl f init := by
  intro l
  induction l with
  | nil => intro _; rfl
  | cons e t ih =>
      intro init
      cases hc : e.card with
      | none =>
          have hs : e.card.isSome = false := by rw [hc]; rfl
          rw [List.filter_cons, if_neg (by simp [hs]), ih,
            List.foldl_cons, hf init e hc]
      | some c =>
          have hs : e.card.isSome = true := by rw [hc]; rfl
          rw [List.filter_cons, if_pos (by simp [hs]), List.foldl_cons,
            List.foldl_cons, ih]

/-- A `find?` whose predicate rejects entries with `card = none` is
unchanged by restricting to the hydrated entries. -/
theorem find?_skip_none (p : DeckEntry → Bool)
    (hp : ∀ e : DeckEntry, e.card = none → p e = false) :
    ∀ l : List DeckEntry,
      (l.filter (fun e => e.card.isSome)).find? p = l.find? p := by
  intro l
  induction l with
  | nil => rfl
  | cons e t ih =>
      cases hc : e.card with
      | none =>
          have hs : e.card.isSome = false := by rw [hc]; rfl
          rw [List.filter_cons, if_neg (by simp [hs]), ih,
            List.find?_cons_of_neg _ (by simp [hp e hc])]
      | some c =>
          have hs : e.card.isSome = true := by rw [hc]; rfl
          rw [List.filter_cons, if_pos (by simp [hs])]
          cases hpe : p e with
          | true =>
              rw [List.find?_cons_of_pos _ hpe, List.find?_cons_of_pos _ hpe]
          | false =>
              rw [List.find?_cons_of_neg _ (by simp [hpe]),
                List.find?_cons_of_neg _ (by simp [hpe]), ih]

theorem creatureTypeCounts_hydrated (d : DeckList) :
    creatureTypeCounts d.hydratedOnly = creatureTypeCounts d := by
  unfold creatureTypeCounts
  rw [mainboard_hydratedOnly]
  apply foldl_skip_none
  intro acc e h
  simp only [h]

theorem tribalCardsFor_hydrated (d : DeckList) :
    tribalCardsFor d.hydratedOnly = tribalCardsFor d := by
  funext tribe
  unfold tribalCardsFor
  rw [mainboard_hydratedOnly]
  apply foldl_skip_none
  intro acc e h
  simp only [h]

theorem classifyInto_hydrated (d : DeckList) :
    classifyInto d.hydratedOnly = classifyInto d := by
  funext profiles theme cards
  unfold classifyInto
  congr 1
  funext eps card_name
  rw [mainboard_hydratedOnly, find?_skip_none _ (fun e h => by simp only [h])]

theorem build_card_profiles_hydrated (d : DeckList) :
    RuleBasedDetector.build_card_profiles d.hydratedOnly
      = RuleBasedDetector.build_card_profiles d := by
  unfold RuleBasedDetector.build_card_profiles
  rw [mainboard_hydratedOnly]
  apply foldl_skip_none
  intro acc e h
  simp only [h]

/-- An ordered insert commutes with a map that reflects the order. -/
theorem map_orderedInsert {α β : Type} (r : α → α → Prop) [DecidableRel r]
    (s : β → β → Prop) [DecidableRel s] (g : α → β)
    (hg : ∀ a b, r a b ↔ s (g a) (g b)) (x : α) :
    ∀ l : List α,
      (List.orderedInsert r x l).map g
        = List.orderedInsert s (g x) (l.map g) := by
  intro l
  induction l with
  | nil => rfl
  | cons y t ih =>
      simp only [List.orderedInsert, List.map_cons]
      by_cases h : r x y
      · rw [if_pos h, if_pos ((hg x y).mp h)]
        simp
      · rw [if_neg h, if_neg (fun hs => h ((hg x y).mpr hs))]
        simp [ih]

/-- An insertion sort commutes with a map that reflects the order. -/
theorem map_insertionSort {α β : Type} (r : α → α → Prop) [DecidableRel r]
    (s : β → β → Prop) [DecidableRel s] (g : α → β)
    (hg : ∀ a b, r a b ↔ s (g a) (g b)) :
    ∀ l : List α, (l.insertionSort r).map g = (l.map g).insertionSort s := by
  intro l
  induction l with
  | nil => rfl
  | cons x t ih =>
      simp only [List.insertionSort, List.map_cons]
      rw [map_orderedInsert r s g hg, ih]

/-- The card-count sort of `aggregate_themes`, viewed through the
percentage-dropping projection, depends only on that projection. -/
theorem map_themeData_insertionSort (l₁ l₂ : List ThemeAnalysis)
    (h : l₁.map themeData = l₂.map themeData) :
    (l₁.insertionSort (fun a b => b.card_count ≤ a.card_count)).map themeData
      = (l₂.insertionSort
          (fun a b => b.card_count ≤ a.card_count)).map themeData := by
  rw [map_insertionSort (fun (a b : ThemeAnalysis) =>
      b.card_count ≤ a.card_count)
    (fun (x y : Theme × ℕ × List String × List String × List String) =>
      y.2.1 ≤ x.2.1) themeData (fun a b => Iff.rfl)]
  rw [map_insertionSort (fun (a b : ThemeAnalysis) =>
      b.card_count ≤ a.card_count)
    (fun (x y : Theme × ℕ × List String × List String × List String) =>
      y.2.1 ≤ x.2.1) themeData (fun a b => Iff.rfl)]
  rw [h]

/-- Except for the `percentage` field, the theme analyses of the hydrated
sub-decklist agree with those of the full decklist. -/
theorem aggregate_themes_hydrated (self : RuleBasedDetector)
    (profiles : List (String × CardSynergyProfile)) (d : DeckList) :
    (self.aggregate_themes profiles d.hydratedOnly).map themeData
      = (self.aggregate_themes profiles d).map themeData := by
  unfold RuleBasedDetector.aggregate_themes
  rw [creatureTypeCounts_hydrated, tribalCardsFor_hydrated,
    classifyInto_hydrated]
  refine map_themeData_insertionSort _ _ ?_
  rw [List.map_map, List.map_map]
  exact List.map_congr_left (fun tc _ => rfl)

/-- Two components of a `themeData` equality. -/
theorem allCards_themeData (t₁ t₂ : ThemeAnalysis)
    (h : themeData t₁ = themeData t₂) : t₁.all_cards = t₂.all_cards := by
  simp only [themeData, Prod.mk.injEq] at h
  unfold ThemeAnalysis.all_cards
  rw [h.2.2.1, h.2.2.2.1, h.2.2.2.2]

theorem edgeStep_themeData (t₁ t₂ : ThemeAnalysis)
    (h : themeData t₁ = themeData t₂) : edgeStep t₁ = edgeStep t₂ := by
  simp only [themeData, Prod.mk.injEq] at h
  have he : edgeFor t₁ = edgeFor t₂ := by
    funext a b
    unfold edgeFor
    rw [h.1, h.2.2.1, h.2.2.2.1]
  funext st p
  unfold edgeStep
  rw [he]

/-- The edge-building fold depends on the theme list only through the
percentage-dropping projection. -/
theorem foldl_edges_congr :
    ∀ (l₁ l₂ : List ThemeAnalysis), l₁.map themeData = l₂.map themeData →
      ∀ st : List SynergyEdge × List (String × String),
        l₁.foldl (fun st t => (listPairs t.all_cards).foldl (edgeStep t) st)
            st
          = l₂.foldl (fun st t =>
              (listPairs t.all_cards).foldl (edgeStep t) st) st
  | [], [], _, _ => rfl
  | [], _ :: _, h, _ => by simp at h
  | _ :: _, [], h, _ => by simp at h
  | x :: t₁, y :: t₂, h, st => by
      simp only [List.map_cons, List.cons.injEq] at h
      simp only [List.foldl_cons]
      rw [allCards_themeData x y h.1, edgeStep_themeData x y h.1]
      exact foldl_edges_congr t₁ t₂ h.2 _

/-- Claim C9.  Entries whose `card` field is `None` contribute nothing to
the analyses: the curve analyzer's buckets, statistics, and pip breakdown,
and the synergy detector's card profiles, theme analyses (up to the
`percentage` field, which is NOT preserved — see the counterexample) and
edges, are unchanged when the unhydrated entries are removed; both
analyses are total, so such entries never cause an error. -/
theorem claim_c9_skip_unhydrated :
    (∀ d : DeckList,
        (CurveAnalyzer.analyze d.hydratedOnly).buckets
            = (CurveAnalyzer.analyze d).buckets
        ∧ (CurveAnalyzer.analyze d.hydratedOnly).stats
            = (CurveAnalyzer.analyze d).stats
        ∧ (CurveAnalyzer.analyze d.hydratedOnly).pip_breakdown
            = (CurveAnalyzer.analyze d).pip_breakdown) ∧
    (∀ (self : RuleBasedDetector) (d : DeckList),
        (self.analyze d.hydratedOnly).card_profiles
            = (self.analyze d).card_profiles
        ∧ (self.analyze d.hydratedOnly).detected_themes.map themeData
            = (self.analyze d).detected_themes.map themeData
        ∧ (self.analyze d.hydratedOnly).edges = (self.analyze d).edges) := by
  constructor
  · intro d
    have hacc : d.hydratedOnly.mainboard.foldl curveStep
        ⟨[], [], ColorPipBreakdown.zero⟩
          = d.mainboard.foldl curveStep ⟨[], [], ColorPipBreakdown.zero⟩ := by
      rw [mainboard_hydratedOnly]
      apply foldl_skip_none
      intro acc e h
      unfold curveStep
      rw [h]
    refine ⟨?_, ?_, ?_⟩ <;> simp only [CurveAnalyzer.analyze] <;> rw [hacc]
  · intro self d
    refine ⟨?_, ?_, ?_⟩ <;> simp only [RuleBasedDetector.analyze]
    · exact build_card_profiles_hydrated d
    · rw [build_card_profiles_hydrated d]
      exact aggregate_themes_hydrated self _ d
    · rw [build_card_profiles_hydrated d]
      unfold RuleBasedDetector.build_edges
      exact congrArg Prod.fst
        (foldl_edges_congr _ _ (aggregate_themes_hydrated self _ d) _)

/-- Claim C9, counterexample to the unrestricted reading: removing an
unhydrated entry changes `ThemeAnalysis.percentage`, because its
denominator `total_cards` counts the quantities of unhydrated entries. -/
theorem claim_c9_counterexample :
    c9DeckN.hydratedOnly = c9DeckH ∧
    ((RuleBasedDetector.new.analyze c9DeckH).detected_themes.map
      (fun t => t.percentage)) = [1] ∧
    ((RuleBasedDetector.new.analyze c9DeckN).detected_themes.map
      (fun t => t.percentage)) = [1/2] := by
  refine ⟨by decide, by decide, by decide⟩

/-! ## Claim C10: the curve analyzer ignores card faces -/

/-- Stripping faces commutes with taking the mainboard. -/
theorem mainboard_stripFaces (d : DeckList) :
    d.stripFaces.mainboard
      = d.mainboard.map
          (fun e => { e with card := e.card.map Card.stripFaces }) := by
  unfold DeckList.stripFaces DeckList.mainboard
  simp only []
  rw [List.filter_map]
  rfl

/-- The entry loop of the curve analyzer never looks at `card_faces`. -/
theorem curveStep_stripFaces (acc : CurveAcc) (e : DeckEntry) :
    curveStep acc { e with card := e.card.map Card.stripFaces }
      = curveStep acc e := by
  rcases e with ⟨q, nm, c, s⟩
  cases c with
  | none => rfl
  | some card => rfl

theorem total_cards_stripFaces (d : DeckList) :
    d.stripFaces.total_cards = d.total_cards := by
  unfold DeckList.stripFaces DeckList.total_cards
  simp only []
  rw [List.map_map]
  rfl

theorem unique_cards_stripFaces (d : DeckList) :
    d.stripFaces.unique_cards = d.unique_cards := by
  unfold DeckList.stripFaces DeckList.unique_cards
  simp only []
  rw [List.length_map]

/-- Claim C10.  The curve analyzer classifies and buckets a card from its
top-level `type_line` only, never from `card_faces`: stripping every
hydrated card's faces leaves the whole analysis unchanged, and on the
concrete double-faced deck the quantity-3 Sorcery with a `Land` back face
and the quantity-2 Instant with a `Creature` back face are both bucketed
(buckets (1, 2) and (2, 3)) with zero creature counts. -/
theorem claim_c10_top_level_type_line :
    (∀ d : DeckList,
      CurveAnalyzer.analyze d.stripFaces = CurveAnalyzer.analyze d) ∧
    ((CurveAnalyzer.analyze c10Deck).buckets.map
        (fun b => (b.cmc, b.total_count, b.creature_count)))
      = [(1, 2, 0), (2, 3, 0)] ∧
    (CurveAnalyzer.analyze c10Deck).stats.total_nonland_cards = 5 ∧
    (CurveAnalyzer.analyze c10Deck).stats.total_creatures = 0 := by
  refine ⟨?_, by decide, by decide, by decide⟩
  intro d
  have hmain : d.stripFaces.mainboard.foldl curveStep
      ⟨[], [], ColorPipBreakdown.zero⟩
        = d.mainboard.foldl curveStep ⟨[], [], ColorPipBreakdown.zero⟩ := by
    rw [mainboard_stripFaces, List.foldl_map]
    simp only [curveStep_stripFaces]
  have hname : d.stripFaces.name = d.name := rfl
  have hformat : d.stripFaces.format = d.format := rfl
  simp only [CurveAnalyzer.analyze]
  rw [hmain, total_cards_stripFaces, unique_cards_stripFaces, hname, hformat]

end Scry
